import Mathlib

/-!
A shallow embedding of the configuration-validation, secrets-resolution,
config-loading and job-execution logic of the dwh-orchestration repository
(src/src/ingestion/config/validator.py, secrets_resolver.py, loader.py,
models.py and src/orchestration/main.py), together with theorems settling
the frozen claims about that logic.

Python dictionaries are modelled as insertion-ordered association lists
(`alookup` / `pyInsert`), YAML scalars and `Any` values as the inductive
`Value`, `os.getenv` as a function `String → Option String`, the regular
expression engine behind `re.match` as an oracle `String → String → Bool`,
and Python exceptions as an `Except PyErr` result.
-/

namespace DWH

/-- Python exceptions observable in the embedded fragment: pydantic raises
`AttributeError` when a model attribute that was never declared is read, and
the resolver and validator raise `ValueError` with a message. -/
inductive PyErr where
  | attributeError : PyErr
  | valueError (msg : String) : PyErr
  | recursionError : PyErr
deriving DecidableEq

/-- Python `str.split()` with no argument: split on runs of whitespace and
drop the empty pieces. -/
def pySplitWs (s : String) : List String :=
  (s.split Char.isWhitespace).filter (fun t => !t.isEmpty)

/-- Python dict lookup `d.get(k)` / `k in d` over an insertion-ordered
association list. -/
def alookup {α : Type} : List (String × α) → String → Option α
  | [], _ => none
  | (k₁, v₁) :: rest, k => if k₁ = k then some v₁ else alookup rest k

/-- Python dict assignment `d[k] = v`: overwrite the existing entry in place
(keeping its position) or append a new entry at the end. -/
def pyInsert {α : Type} (k : String) (v : α) : List (String × α) → List (String × α)
  | [] => [(k, v)]
  | (k₁, v₁) :: rest => if k₁ = k then (k, v) :: rest else (k₁, v₁) :: pyInsert k v rest

/-- YAML/JSON-like values: the `Any`-typed payloads the Python code traverses. -/
inductive Value where
  | vstr (s : String)
  | vint (n : Int)
  | vbool (b : Bool)
  | vnone
  | vlist (items : List Value)
  | vdict (entries : List (String × Value))

mutual

/-- Decidable equality for the nested inductive `Value` (the automatic
derivation does not handle the nesting through lists). -/
def Value.decEq : (a b : Value) → Decidable (a = b)
  | .vstr s, .vstr t =>
      match String.decEq s t with
      | isTrue h => isTrue (by rw [h])
      | isFalse n => isFalse (fun h => n (Value.vstr.inj h))
  | .vstr _, .vint _ => isFalse (fun h => Value.noConfusion h)
  | .vstr _, .vbool _ => isFalse (fun h => Value.noConfusion h)
  | .vstr _, .vnone => isFalse (fun h => Value.noConfusion h)
  | .vstr _, .vlist _ => isFalse (fun h => Value.noConfusion h)
  | .vstr _, .vdict _ => isFalse (fun h => Value.noConfusion h)
  | .vint _, .vstr _ => isFalse (fun h => Value.noConfusion h)
  | .vint m, .vint n =>
      match Int.decEq m n with
      | isTrue h => isTrue (by rw [h])
      | isFalse n₁ => isFalse (fun h => n₁ (Value.vint.inj h))
  | .vint _, .vbool _ => isFalse (fun h => Value.noConfusion h)
  | .vint _, .vnone => isFalse (fun h => Value.noConfusion h)
  | .vint _, .vlist _ => isFalse (fun h => Value.noConfusion h)
  | .vint _, .vdict _ => isFalse (fun h => Value.noConfusion h)
  | .vbool _, .vstr _ => isFalse (fun h => Value.noConfusion h)
  | .vbool _, .vint _ => isFalse (fun h => Value.noConfusion h)
  | .vbool a, .vbool b =>
      match Bool.decEq a b with
      | isTrue h => isTrue (by rw [h])
      | isFalse n => isFalse (fun h => n (Value.vbool.inj h))
  | .vbool _, .vnone => isFalse (fun h => Value.noConfusion h)
  | .vbool _, .vlist _ => isFalse (fun h => Value.noConfusion h)
  | .vbool _, .vdict _ => isFalse (fun h => Value.noConfusion h)
  | .vnone, .vstr _ => isFalse (fun h => Value.noConfusion h)
  | .vnone, .vint _ => isFalse (fun h => Value.noConfusion h)
  | .vnone, .vbool _ => isFalse (fun h => Value.noConfusion h)
  | .vnone, .vnone => isTrue rfl
  | .vnone, .vlist _ => isFalse (fun h => Value.noConfusion h)
  | .vnone, .vdict _ => isFalse (fun h => Value.noConfusion h)
  | .vlist _, .vstr _ => isFalse (fun h => Value.noConfusion h)
  | .vlist _, .vint _ => isFalse (fun h => Value.noConfusion h)
  | .vlist _, .vbool _ => isFalse (fun h => Value.noConfusion h)
  | .vlist _, .vnone => isFalse (fun h => Value.noConfusion h)
  | .vlist xs, .vlist ys =>
      match Value.decEqList xs ys with
      | isTrue h => isTrue (by rw [h])
      | isFalse n => isFalse (fun h => n (Value.vlist.inj h))
  | .vlist _, .vdict _ => isFalse (fun h => Value.noConfusion h)
  | .vdict _, .vstr _ => isFalse (fun h => Value.noConfusion h)
  | .vdict _, .vint _ => isFalse (fun h => Value.noConfusion h)
  | .vdict _, .vbool _ => isFalse (fun h => Value.noConfusion h)
  | .vdict _, .vnone => isFalse (fun h => Value.noConfusion h)
  | .vdict _, .vlist _ => isFalse (fun h => Value.noConfusion h)
  | .vdict xs, .vdict ys =>
      match Value.decEqEntries xs ys with
      | isTrue h => isTrue (by rw [h])
      | isFalse n => isFalse (fun h => n (Value.vdict.inj h))

/-- Decidable equality for lists of values. -/
def Value.decEqList : (as bs : List Value) → Decidable (as = bs)
  | [], [] => isTrue rfl
  | _ :: _, [] => isFalse (fun h => List.noConfusion h)
  | [], _ :: _ => isFalse (fun h => List.noConfusion h)
  | a :: as, b :: bs =>
      match Value.decEq a b with
      | isFalse n => isFalse (fun h => n (List.cons.inj h).1)
      | isTrue h₁ =>
          match Value.decEqList as bs with
          | isFalse n => isFalse (fun h => n (List.cons.inj h).2)
          | isTrue h₂ => isTrue (by rw [h₁, h₂])

/-- Decidable equality for dict entry lists. -/
def Value.decEqEntries : (as bs : List (String × Value)) → Decidable (as = bs)
  | [], [] => isTrue rfl
  | _ :: _, [] => isFalse (fun h => List.noConfusion h)
  | [], _ :: _ => isFalse (fun h => List.noConfusion h)
  | (k₁, v₁) :: as, (k₂, v₂) :: bs =>
      match String.decEq k₁ k₂ with
      | isFalse n => isFalse (fun h => n (congrArg Prod.fst (List.cons.inj h).1))
      | isTrue hk =>
          match Value.decEq v₁ v₂ with
          | isFalse n => isFalse (fun h => n (congrArg Prod.snd (List.cons.inj h).1))
          | isTrue hv =>
              match Value.decEqEntries as bs with
              | isFalse n => isFalse (fun h => n (List.cons.inj h).2)
              | isTrue hs => isTrue (by rw [hk, hv, hs])

end

instance : DecidableEq Value := Value.decEq

/-! ## models.py: the pydantic configuration records -/

/-- `Environment` enum of models.py. -/
inductive Environment where
  | dev
  | stage
  | prod
deriving DecidableEq

/-- The `.value` of the `Environment` str-enum. -/
def Environment.value : Environment → String
  | .dev => "dev"
  | .stage => "stage"
  | .prod => "prod"

/-- `SourceType` enum of models.py. -/
inductive SourceType where
  | rest_api
  | database
  | file
  | stream
deriving DecidableEq

/-- `DestinationType` enum of models.py. -/
inductive DestinationType where
  | databricks
  | snowflake
  | bigquery
  | postgres
  | duckdb
deriving DecidableEq

/-- `WriteDisposition` enum of models.py. -/
inductive WriteDisposition where
  | append
  | replace
  | merge
deriving DecidableEq

/-- The `.value` of the `WriteDisposition` str-enum. -/
def WriteDisposition.value : WriteDisposition → String
  | .append => "append"
  | .replace => "replace"
  | .merge => "merge"

/-- `AuthType` enum of models.py. -/
inductive AuthType where
  | none
  | basic
  | bearer
  | oauth2
  | api_key
deriving DecidableEq

/-- `RetryConfig` of models.py (`backoff_factor`, a float field, is modelled
as a rational; no claim depends on float arithmetic). -/
structure RetryConfig where
  max_attempts : Nat := 3
  backoff_factor : ℚ := 2
  backoff_max : Nat := 60
deriving DecidableEq

/-- `AuthConfig` of models.py. -/
structure AuthConfig where
  type : AuthType
  credentials_secret_key : Option String := Option.none
  username_secret_key : Option String := Option.none
  password_secret_key : Option String := Option.none
  token_secret_key : Option String := Option.none
deriving DecidableEq

/-- `ConnectionConfig` of models.py. -/
structure ConnectionConfig where
  base_url : Option String := Option.none
  auth : Option AuthConfig := Option.none
  timeout : Nat := 30
  retry : RetryConfig := {}
deriving DecidableEq

/-- `IncrementalConfig` of models.py. -/
structure IncrementalConfig where
  enabled : Bool := true
  strategy : String := "append"
  cursor_field : String
  initial_value : String
deriving DecidableEq

/-- `ResourceConfig` of models.py. -/
structure ResourceConfig where
  name : String
  description : Option String := Option.none
  endpoint : Option String := Option.none
  method : String := "GET"
  params : List (String × Value) := []
  incremental : Option IncrementalConfig := Option.none
  primary_key : List String := []
  write_disposition : WriteDisposition := .append
  table_schema : Option Value := Option.none
  data_quality : Option Value := Option.none
  pii_fields : List String := []
  aliases : List (String × String) := []
deriving DecidableEq

/-- `SourceConfig` of models.py. Note that no `environment` field is
declared: of all the models only `SecretsConfig` carries one. -/
structure SourceConfig where
  name : String
  type : SourceType
  description : Option String := Option.none
  connection : ConnectionConfig
  resources : List ResourceConfig
deriving DecidableEq

/-- `DestinationConnectionConfig` of models.py. -/
structure DestinationConnectionConfig where
  file_path : Option String := Option.none
  server_hostname_secret_key : Option String := Option.none
  http_path_secret_key : Option String := Option.none
  access_token_secret_key : Option String := Option.none
  catalog : Option String := Option.none
  db_schema : String := "raw_data"
  session_configuration : List (String × String) := []
  timeout : Nat := 300
  retry : RetryConfig := {}
deriving DecidableEq

/-- `DestinationSettings` of models.py. -/
structure DestinationSettings where
  table_format : String := "delta"
  partition_by : List String := []
  cluster_by : List String := []
  write_mode : String := "append"
  optimize_after_write : Bool := true
  vacuum_after_write : Bool := false
  vacuum_retention_hours : Nat := 168
  schema_evolution : Bool := true
  case_sensitive : Bool := false
  max_parallel_loads : Nat := 4
  batch_size : Nat := 10000
deriving DecidableEq

/-- `DestinationConfig` of models.py. No `environment` field is declared. -/
structure DestinationConfig where
  name : String
  type : DestinationType
  description : Option String := Option.none
  connection : DestinationConnectionConfig
  settings : DestinationSettings := {}
deriving DecidableEq

/-- `ScheduleConfig` of models.py. -/
structure ScheduleConfig where
  enabled : Bool := true
  cron : String
  timezone : String := "UTC"
  catchup : Bool := false
  max_active_runs : Nat := 1
deriving DecidableEq

/-- `ExecutionConfig` of models.py. -/
structure ExecutionConfig where
  parallelism : Nat := 2
  timeout : Nat := 3600
  retries : Nat := 2
  retry_delay : Nat := 300
  max_memory_mb : Nat := 2048
  max_cpu_cores : Nat := 2
deriving DecidableEq

/-- `PipelineSourceRef` of models.py. -/
structure PipelineSourceRef where
  config_file : String
  resources : List String
  params : List (String × Value) := []
deriving DecidableEq

/-- `PipelineDestinationRef` of models.py. -/
structure PipelineDestinationRef where
  config_file : String
  dataset_name : String
deriving DecidableEq

/-- `PipelineConfig` of models.py (the nested `transformations`,
`data_quality`, `monitoring` and `alerts` sub-records are carried as opaque
payloads; no claim touches them). Note that no `environment` field is
declared on this model. -/
structure PipelineConfig where
  name : String
  description : Option String := Option.none
  source : PipelineSourceRef
  destination : PipelineDestinationRef
  schedule : ScheduleConfig
  execution : ExecutionConfig := {}
  data_quality : Option Value := Option.none
  tags : List String := []
  owner : String := "data-engineering"
  sla_hours : Int := 24
deriving DecidableEq

/-- Reading `config.environment` on a `PipelineConfig`: models.py declares no
such field, pydantic silently drops an `environment=` constructor keyword
(default `extra` behaviour), and the attribute read raises `AttributeError`. -/
def PipelineConfig.environmentAttr (_ : PipelineConfig) : Except PyErr Environment :=
  .error .attributeError

/-- Reading `config.environment` on a `SourceConfig`: the field does not
exist, so the attribute read raises `AttributeError`. -/
def SourceConfig.environmentAttr (_ : SourceConfig) : Except PyErr Environment :=
  .error .attributeError

/-- Reading `config.environment` on a `DestinationConfig`: the field does not
exist, so the attribute read raises `AttributeError`. -/
def DestinationConfig.environmentAttr (_ : DestinationConfig) : Except PyErr Environment :=
  .error .attributeError

/-! ## validator.py: ConfigValidator -/

/-- The error string of validator.py line 32. -/
def cursorFieldMsg (name : String) : String :=
  "Resource '" ++ name ++ "': incremental enabled but cursor_field not set"

/-- The error string of validator.py lines 37-40 (the two adjacent f-string
literals concatenate). -/
def primaryKeyMsg (name : String) : String :=
  "Resource '" ++ name ++ "': write_disposition is 'merge' but no primary_key defined"

/-- The error string of validator.py line 24. -/
def noResourcesMsg : String :=
  "Source must have at least one resource defined"

/-- The per-resource checks of `ConfigValidator.validate_source_config`
(the loop body, validator.py lines 27-40), in appending order. -/
def resourceErrors (r : ResourceConfig) : List String :=
  (match r.incremental with
    | some inc =>
        if inc.enabled && inc.cursor_field.isEmpty then [cursorFieldMsg r.name] else []
    | none => []) ++
  (if r.write_disposition.value = "merge" ∧ r.primary_key = [] then [primaryKeyMsg r.name]
   else [])

/-- `ConfigValidator.validate_source_config` (validator.py lines 9-42). -/
def validate_source_config (config : SourceConfig) : List String :=
  (if config.resources = [] then [noResourcesMsg] else []) ++
  config.resources.flatMap resourceErrors

/-- The error string of validator.py lines 99-102. -/
def invalidCronMsg (cron : String) : String :=
  "Invalid cron expression: '" ++ cron ++
    "'. Must have 5 parts (minute hour day month day_of_week)"

/-- The error string of validator.py lines 114-116 (the Python set repr of
`available_resources` is rendered as the comma-joined element list; no claim
depends on the set rendering). -/
def resourceNotInSourceMsg (rname : String) (available : List String) : String :=
  "Resource '" ++ rname ++ "' requested in pipeline but not defined in source. Available: " ++
    String.intercalate ", " available

/-- The error string of validator.py lines 121-123. -/
def envMismatchSourceMsg (p s : Environment) : String :=
  "Environment mismatch: pipeline is " ++ p.value ++ ", source is " ++ s.value

/-- The error string of validator.py lines 130-132. -/
def envMismatchDestMsg (p d : Environment) : String :=
  "Environment mismatch: pipeline is " ++ p.value ++ ", destination is " ++ d.value

/-- `ConfigValidator.validate_pipeline_config` (validator.py lines 75-135).
The environment-consistency checks read `config.environment`,
`source_config.environment` and `destination_config.environment`, attributes
the models never declare, so those reads raise. -/
def validate_pipeline_config (config : PipelineConfig)
    (source_config : Option SourceConfig) (destination_config : Option DestinationConfig) :
    Except PyErr (List String) := do
  let mut errors : List String := []
  if config.schedule.enabled then
    if (pySplitWs config.schedule.cron.trim).length ≠ 5 then
      errors := errors ++ [invalidCronMsg config.schedule.cron]
  if config.sla_hours < 1 then
    errors := errors ++ ["SLA hours must be at least 1"]
  match source_config with
  | some src =>
      let available := src.resources.map (fun r => r.name)
      for resource_name in config.source.resources do
        if resource_name ∉ available then
          errors := errors ++ [resourceNotInSourceMsg resource_name available]
      let envP ← config.environmentAttr
      let envS ← src.environmentAttr
      if envP ≠ envS then
        errors := errors ++ [envMismatchSourceMsg envP envS]
  | none => pure ()
  match destination_config with
  | some dst =>
      let envP ← config.environmentAttr
      let envD ← dst.environmentAttr
      if envP ≠ envD then
        errors := errors ++ [envMismatchDestMsg envP envD]
  | none => pure ()
  return errors

/-! ## Concrete configurations (mirroring the repository's own test fixtures) -/

/-- The `users` resource of the test fixtures. -/
def usersResource : ResourceConfig :=
  { name := "users", endpoint := some "/users" }

/-- The source fixture: one resource `users` (the tests pass an
`environment=` keyword, which pydantic silently drops). -/
def fixtureSource : SourceConfig :=
  { name := "test_source", type := .rest_api,
    connection := { base_url := some "https://api.example.com" },
    resources := [usersResource] }

/-- The pipeline fixture requesting resource `users`, schedule disabled. -/
def fixturePipeline : PipelineConfig :=
  { name := "test_pipeline",
    source := { config_file := "source.yaml", resources := ["users"] },
    destination := { config_file := "dest.yaml", dataset_name := "raw" },
    schedule := { enabled := false, cron := "0 0 * * *" } }

/-- The pipeline fixture requesting resources `users` and `events`. -/
def fixturePipelineTwoRes : PipelineConfig :=
  { name := "test_pipeline",
    source := { config_file := "source.yaml", resources := ["users", "events"] },
    destination := { config_file := "dest.yaml", dataset_name := "raw" },
    schedule := { enabled := false, cron := "0 0 * * *" } }

/-- Without a source or destination config the validator returns its error
list normally: the raising path is only reached when a companion config is
supplied. -/
theorem validate_pipeline_alone_ok :
    validate_pipeline_config fixturePipeline none none = .ok [] := by rfl

/-! ## String-distinctness helpers for the validator messages -/

/-- Two strings of the shape `prefix ++ middle ++ suffix` differ whenever
their nonempty suffixes end in different characters. -/
theorem append_ne_of_getLast (p₁ p₂ n m s₁ s₂ : String)
    (h₁ : s₁.data.getLast?.isSome = true) (h₂ : s₂.data.getLast?.isSome = true)
    (hne : s₁.data.getLast? ≠ s₂.data.getLast?) :
    p₁ ++ n ++ s₁ ≠ p₂ ++ m ++ s₂ := by
  intro heq
  apply hne
  have hd := congrArg String.data heq
  rw [String.data_append (p₁ ++ n) s₁, String.data_append (p₂ ++ m) s₂] at hd
  have hlast := congrArg List.getLast? hd
  rw [List.getLast?_append, List.getLast?_append] at hlast
  obtain ⟨c₁, hc₁⟩ := Option.isSome_iff_exists.mp h₁
  obtain ⟨c₂, hc₂⟩ := Option.isSome_iff_exists.mp h₂
  rw [hc₁, hc₂] at hlast ⊢
  simpa using hlast

/-- Two strings of the shape `prefix ++ middle ++ suffix` differ whenever
their nonempty prefixes start with different characters. -/
theorem append_ne_of_head (p₁ p₂ n m s₁ s₂ : String)
    (h₁ : p₁.data ≠ []) (h₂ : p₂.data ≠ [])
    (hne : p₁.data.head? ≠ p₂.data.head?) :
    p₁ ++ n ++ s₁ ≠ p₂ ++ m ++ s₂ := by
  intro heq
  apply hne
  have hd := congrArg String.data heq
  rw [String.data_append (p₁ ++ n) s₁, String.data_append (p₂ ++ m) s₂,
    String.data_append p₁ n, String.data_append p₂ m,
    List.append_assoc, List.append_assoc] at hd
  have e₁ : (p₁.data ++ (n.data ++ s₁.data)).head? = p₁.data.head? :=
    List.head?_append_of_ne_nil _ h₁
  have e₂ : (p₂.data ++ (m.data ++ s₂.data)).head? = p₂.data.head? :=
    List.head?_append_of_ne_nil _ h₂
  rw [← e₁, ← e₂, hd]

/-- Cancelling a shared prefix and suffix: the middles agree. -/
theorem append_inj_mid (p s n m : String) (h : p ++ n ++ s = p ++ m ++ s) : n = m := by
  have hd := congrArg String.data h
  rw [String.data_append (p ++ n) s, String.data_append (p ++ m) s,
    String.data_append p n, String.data_append p m,
    List.append_assoc, List.append_assoc] at hd
  have hmid := List.append_cancel_left hd
  exact String.ext (List.append_cancel_right hmid)

/-- The primary-key message determines the resource name. -/
theorem primaryKeyMsg_inj (n m : String) (h : primaryKeyMsg n = primaryKeyMsg m) : n = m :=
  append_inj_mid _ _ _ _ h

/-- The primary-key message is never the cursor-field message (their last
characters differ). -/
theorem primaryKeyMsg_ne_cursorFieldMsg (n m : String) :
    primaryKeyMsg n ≠ cursorFieldMsg m :=
  append_ne_of_getLast _ _ _ _ _ _ (by decide) (by decide) (by decide)

/-- The primary-key message is never the no-resources message (their first
characters differ). -/
theorem primaryKeyMsg_ne_noResourcesMsg (n : String) :
    primaryKeyMsg n ≠ noResourcesMsg := by
  have h := append_ne_of_head "Resource '"
    "Source must have at least one resource defined" n ""
    "': write_disposition is 'merge' but no primary_key defined" ""
    (by decide) (by decide) (by decide)
  intro hc
  exact h (hc.trans (by rfl))

/-- C7: validate_source_config reports the primary-key error for name `n`
exactly when some resource named `n` has merge disposition and an empty
primary-key list; other write dispositions never trigger it. -/
theorem primary_key_error_iff (config : SourceConfig) (n : String) :
    primaryKeyMsg n ∈ validate_source_config config ↔
      ∃ r ∈ config.resources,
        r.name = n ∧ r.write_disposition = .merge ∧ r.primary_key = [] := by
  unfold validate_source_config
  rw [List.mem_append, List.mem_flatMap]
  constructor
  · rintro (hbase | ⟨r, hr, hmem⟩)
    · exfalso
      by_cases hres : config.resources = []
      · rw [if_pos hres, List.mem_singleton] at hbase
        exact primaryKeyMsg_ne_noResourcesMsg n hbase
      · rw [if_neg hres] at hbase
        exact (List.not_mem_nil _) hbase
    · unfold resourceErrors at hmem
      rw [List.mem_append] at hmem
      rcases hmem with hinc | hpk
      · exfalso
        split at hinc
        · split at hinc
          · exact primaryKeyMsg_ne_cursorFieldMsg n r.name (List.mem_singleton.mp hinc)
          · exact (List.not_mem_nil _) hinc
        · exact (List.not_mem_nil _) hinc
      · split at hpk
        next hcond =>
          rw [List.mem_singleton] at hpk
          refine ⟨r, hr, (primaryKeyMsg_inj n r.name hpk).symm, ?_, hcond.2⟩
          cases hwd : r.write_disposition with
          | append => rw [hwd] at hcond; exact absurd hcond.1 (by decide)
          | replace => rw [hwd] at hcond; exact absurd hcond.1 (by decide)
          | merge => rfl
        next hcond => exact absurd hpk (List.not_mem_nil _)
  · rintro ⟨r, hr, hname, hmerge, hpk⟩
    refine Or.inr ⟨r, hr, ?_⟩
    unfold resourceErrors
    rw [List.mem_append]
    refine Or.inr ?_
    rw [hmerge, hname]
    simp [WriteDisposition.value, hpk]

/-- C1: with a companion source config supplied, the environment-consistency
check reads `config.environment`, an attribute `PipelineConfig` never
declares (the test fixture's `environment=dev` / `environment=prod` keywords
are dropped by pydantic), so the call raises `AttributeError` instead of
returning the single "Environment mismatch" error the spec and the
repository's own test expect. -/
theorem validate_pipeline_env_mismatch_raises :
    validate_pipeline_config fixturePipeline (some fixtureSource) none =
      .error .attributeError := by rfl

/-- C2: requesting `[users, events]` against a source defining only `users`
accumulates the expected "not defined in source" error, but the call then
falls into the environment-consistency check and raises `AttributeError`
before returning, instead of returning exactly that one error. -/
theorem validate_pipeline_missing_resource_raises :
    validate_pipeline_config fixturePipelineTwoRes (some fixtureSource) none =
      .error .attributeError := by rfl

/-! ## secrets_resolver.py: SecretsResolver -/

/-- `SecretMapping` of models.py. -/
structure SecretMapping where
  github_secret : String
  description : String
  required : Bool := true
deriving DecidableEq

/-- `SecretsValidation` of models.py (`patterns` maps secret keys to regex
source strings). -/
structure SecretsValidation where
  required_secrets : List String
  patterns : List (String × String) := []
deriving DecidableEq

/-- `SecretsConfig` of models.py. -/
structure SecretsConfig where
  environment : Environment
  secrets : List (String × SecretMapping)
  validation : SecretsValidation
deriving DecidableEq

/-- The message of secrets_resolver.py lines 47-50. -/
def requiredMissingMsg (k desc : String) : String :=
  "Required secret '" ++ k ++ "' not found in environment variables. Description: " ++ desc

/-- The message of secrets_resolver.py line 52. -/
def notDefinedMsg (k : String) : String :=
  "Secret '" ++ k ++ "' not defined in secrets mapping"

/-- The message of secrets_resolver.py lines 61-62. -/
def patternMismatchMsg (k pat : String) : String :=
  "Secret '" ++ k ++ "' does not match required pattern: " ++ pat

/-- `SecretsResolver.get_secret` (secrets_resolver.py lines 23-67).
`reMatch` is the oracle for `re.match(pattern, value)`, `env` models
`os.getenv`, and the resolver's `_cache` dict is threaded explicitly: the
result carries the value returned and the cache after the call. -/
def get_secret (reMatch : String → String → Bool) (env : String → Option String)
    (cfg : SecretsConfig) (cache : List (String × String)) (secret_key : String) :
    Except PyErr (String × List (String × String)) :=
  match alookup cache secret_key with
  | some v => .ok (v, cache)
  | none =>
    match env secret_key with
    | none =>
      match alookup cfg.secrets secret_key with
      | some info =>
          if info.required then
            .error (.valueError (requiredMissingMsg secret_key info.description))
          else .ok ("", cache)
      | none => .error (.valueError (notDefinedMsg secret_key))
    | some value =>
      match alookup cfg.validation.patterns secret_key with
      | some pattern =>
          if reMatch pattern value then .ok (value, pyInsert secret_key value cache)
          else .error (.valueError (patternMismatchMsg secret_key pattern))
      | none => .ok (value, pyInsert secret_key value cache)

/-- The value `v` passes the pattern configured for key `k`, if any. -/
def patternOk (reMatch : String → String → Bool) (cfg : SecretsConfig)
    (k v : String) : Prop :=
  ∀ p, alookup cfg.validation.patterns k = some p → reMatch p v = true

/-- The resolver's cache only ever holds values that were read from the
environment and passed their configured pattern; every reachable cache state
(in particular the empty initial one) satisfies this. -/
def CacheCoherent (reMatch : String → String → Bool) (env : String → Option String)
    (cfg : SecretsConfig) (cache : List (String × String)) : Prop :=
  ∀ k v, alookup cache k = some v → env k = some v ∧ patternOk reMatch cfg k v

/-- The empty cache is coherent. -/
theorem cacheCoherent_nil (reMatch : String → String → Bool)
    (env : String → Option String) (cfg : SecretsConfig) :
    CacheCoherent reMatch env cfg [] := by
  intro k v h
  exact absurd h (by simp [alookup])

/-- Looking up the key just inserted. -/
theorem alookup_pyInsert_self {α : Type} (k : String) (v : α) (l : List (String × α)) :
    alookup (pyInsert k v l) k = some v := by
  induction l with
  | nil => simp [pyInsert, alookup]
  | cons hd tl ih =>
      obtain ⟨k₁, v₁⟩ := hd
      by_cases h : k₁ = k
      · simp [pyInsert, h, alookup]
      · simp [pyInsert, h, alookup, ih]

/-- Inserting a key does not disturb lookups of other keys. -/
theorem alookup_pyInsert_ne {α : Type} (k k₂ : String) (v : α) (l : List (String × α))
    (h : k₂ ≠ k) : alookup (pyInsert k v l) k₂ = alookup l k₂ := by
  induction l with
  | nil => simp [pyInsert, alookup, Ne.symm h]
  | cons hd tl ih =>
      obtain ⟨k₁, v₁⟩ := hd
      by_cases hk : k₁ = k
      · subst hk
        simp [pyInsert, alookup, Ne.symm h]
      · simp only [pyInsert, if_neg hk, alookup]
        by_cases hk₂ : k₁ = k₂
        · simp [hk₂]
        · simp [hk₂, ih]

/-- Re-inserting the value a key already holds (at its first occurrence)
leaves the dict unchanged. -/
theorem pyInsert_eq_of_alookup {α : Type} (k : String) (v : α) (l : List (String × α))
    (h : alookup l k = some v) : pyInsert k v l = l := by
  induction l with
  | nil => simp [alookup] at h
  | cons hd tl ih =>
      obtain ⟨k₁, v₁⟩ := hd
      by_cases hk : k₁ = k
      · subst hk
        rw [alookup, if_pos rfl] at h
        rw [pyInsert, if_pos rfl, Option.some.inj h]
      · rw [alookup, if_neg hk] at h
        rw [pyInsert, if_neg hk, ih h]

/-- Under a coherent cache, a key absent from the environment is also absent
from the cache. -/
theorem cache_miss_of_env_none (reMatch : String → String → Bool)
    (env : String → Option String) (cfg : SecretsConfig) (cache : List (String × String))
    (k : String) (hc : CacheCoherent reMatch env cfg cache) (henv : env k = none) :
    alookup cache k = none := by
  cases hcc : alookup cache k with
  | none => rfl
  | some w => exact absurd ((hc k w hcc).1.symm.trans henv) (by simp)

/-- Under a coherent cache, a key whose environment value passes its pattern
resolves to that value and is cached (shared helper for several claims). -/
theorem get_secret_env_ok (reMatch : String → String → Bool)
    (env : String → Option String) (cfg : SecretsConfig) (cache : List (String × String))
    (k v : String) (hc : CacheCoherent reMatch env cfg cache)
    (henv : env k = some v) (hp : patternOk reMatch cfg k v) :
    get_secret reMatch env cfg cache k = .ok (v, pyInsert k v cache) := by
  cases hcc : alookup cache k with
  | some w =>
      have hw := (hc k w hcc).1
      have hwv : w = v := Option.some.inj (hw.symm.trans henv)
      subst hwv
      simp only [get_secret, hcc]
      rw [pyInsert_eq_of_alookup k w cache hcc]
  | none =>
      cases hpat : alookup cfg.validation.patterns k with
      | none => simp [get_secret, hcc, henv, hpat]
      | some p => simp [get_secret, hcc, henv, hpat, hp p hpat]

/-- C5: resolution of a secret key under a coherent cache. Absent from the
environment and marked required: a descriptive ValueError. Absent and marked
optional: the empty string, cache untouched. Present: validated against the
optional pattern (ValueError on mismatch), cached and returned on success. -/
theorem get_secret_resolution (reMatch : String → String → Bool)
    (env : String → Option String) (cfg : SecretsConfig) (cache : List (String × String))
    (k : String) (hc : CacheCoherent reMatch env cfg cache) :
    (∀ info, env k = none → alookup cfg.secrets k = some info → info.required = true →
        get_secret reMatch env cfg cache k =
          .error (.valueError (requiredMissingMsg k info.description)))
  ∧ (∀ info, env k = none → alookup cfg.secrets k = some info → info.required = false →
        get_secret reMatch env cfg cache k = .ok ("", cache))
  ∧ (∀ v p, env k = some v → alookup cfg.validation.patterns k = some p →
        reMatch p v = false →
        get_secret reMatch env cfg cache k =
          .error (.valueError (patternMismatchMsg k p)))
  ∧ (∀ v, env k = some v → patternOk reMatch cfg k v →
        get_secret reMatch env cfg cache k = .ok (v, pyInsert k v cache) ∧
          alookup (pyInsert k v cache) k = some v) := by
  refine ⟨?_, ?_, ?_, ?_⟩
  · intro info henv hinfo hreq
    have hmiss := cache_miss_of_env_none reMatch env cfg cache k hc henv
    simp [get_secret, hmiss, henv, hinfo, hreq]
  · intro info henv hinfo hreq
    have hmiss := cache_miss_of_env_none reMatch env cfg cache k hc henv
    simp [get_secret, hmiss, henv, hinfo, hreq]
  · intro v p henv hpat hfail
    cases hcc : alookup cache k with
    | some w =>
        exfalso
        have hw := hc k w hcc
        have hwv : w = v := Option.some.inj (hw.1.symm.trans henv)
        subst hwv
        rw [hw.2 p hpat] at hfail
        exact absurd hfail (by simp)
    | none => simp [get_secret, hcc, henv, hpat, hfail]
  · intro v henv hp
    exact ⟨get_secret_env_ok reMatch env cfg cache k v hc henv hp,
      alookup_pyInsert_self k v cache⟩

/-- C6: once a present, pattern-passing secret has been resolved, the second
resolution of the same key is served from the cache: it returns the
identical value, leaves the cache unchanged, and consults neither the
environment nor the regex engine (the result is the same for every `env₂`
and `reMatch₂`), so the environment lookup happens only once. -/
theorem get_secret_idempotent (reMatch : String → String → Bool)
    (env : String → Option String) (cfg : SecretsConfig) (cache : List (String × String))
    (k v : String) (hc : CacheCoherent reMatch env cfg cache)
    (henv : env k = some v) (hp : patternOk reMatch cfg k v) :
    get_secret reMatch env cfg cache k = .ok (v, pyInsert k v cache) ∧
    (∀ reMatch₂ env₂, get_secret reMatch₂ env₂ cfg (pyInsert k v cache) k =
        .ok (v, pyInsert k v cache)) := by
  refine ⟨get_secret_env_ok reMatch env cfg cache k v hc henv hp, ?_⟩
  intro reMatch₂ env₂
  simp only [get_secret, alookup_pyInsert_self k v cache]

/-- C9: a key that is both unset in the environment and undeclared in the
secrets mapping raises a ValueError, and the empty-string fallback is only
ever produced for keys declared with required = false. -/
theorem get_secret_undeclared (reMatch : String → String → Bool)
    (env : String → Option String) (cfg : SecretsConfig) (cache : List (String × String))
    (hc : CacheCoherent reMatch env cfg cache) :
    (∀ k, env k = none → alookup cfg.secrets k = none →
        get_secret reMatch env cfg cache k = .error (.valueError (notDefinedMsg k)))
  ∧ (∀ k r, env k = none → get_secret reMatch env cfg cache k = .ok r →
        ∃ info, alookup cfg.secrets k = some info ∧ info.required = false ∧
          r = ("", cache)) := by
  constructor
  · intro k henv hmap
    have hmiss := cache_miss_of_env_none reMatch env cfg cache k hc henv
    simp [get_secret, hmiss, henv, hmap]
  · intro k r henv hrun
    have hmiss := cache_miss_of_env_none reMatch env cfg cache k hc henv
    cases hmap : alookup cfg.secrets k with
    | none => simp [get_secret, hmiss, henv, hmap] at hrun
    | some info =>
        simp only [get_secret, hmiss, henv, hmap] at hrun
        by_cases hreq : info.required = true
        · rw [if_pos hreq] at hrun; cases hrun
        · rw [if_neg hreq] at hrun
          exact ⟨info, rfl, Bool.not_eq_true _ ▸ hreq, (Except.ok.inj hrun).symm⟩

/-- A concrete secrets mapping mirroring the repository's test fixtures:
`TEST_API_KEY` required with a pattern, `OPTIONAL_TOKEN` optional. -/
def demoSecretsCfg : SecretsConfig :=
  { environment := .dev,
    secrets :=
      [("TEST_API_KEY",
          { github_secret := "TEST_API_KEY", description := "API key for tests",
            required := true }),
        ("OPTIONAL_TOKEN",
          { github_secret := "OPTIONAL_TOKEN", description := "optional token",
            required := false })],
    validation :=
      { required_secrets := ["TEST_API_KEY"], patterns := [("TEST_API_KEY", "tok_.*")] } }

/-- A concrete regex oracle: the pattern `tok_.*` matches strings starting
with `tok_` (the behaviour of `re.match` on that pattern). -/
def demoReMatch : String → String → Bool :=
  fun p v => if p = "tok_.*" then v.data.take 4 == "tok_".data else false

/-- A concrete environment carrying only `TEST_API_KEY`. -/
def demoEnv : String → Option String :=
  fun k => if k = "TEST_API_KEY" then some "tok_abc123" else none

/-- Witness for C5 at concrete inputs: the required key missing from an
empty environment raises; present and pattern-passing, it resolves and is
cached; the optional key missing resolves to the empty string. -/
theorem get_secret_resolution_witness :
    get_secret demoReMatch (fun _ => none) demoSecretsCfg [] "TEST_API_KEY" =
        .error (.valueError (requiredMissingMsg "TEST_API_KEY" "API key for tests"))
    ∧ get_secret demoReMatch (fun _ => none) demoSecretsCfg [] "OPTIONAL_TOKEN" =
        .ok ("", [])
    ∧ get_secret demoReMatch demoEnv demoSecretsCfg [] "TEST_API_KEY" =
        .ok ("tok_abc123", [("TEST_API_KEY", "tok_abc123")]) := by
  refine ⟨?_, ?_, ?_⟩
  · exact (get_secret_resolution demoReMatch (fun _ => none) demoSecretsCfg []
      "TEST_API_KEY" (cacheCoherent_nil _ _ _)).1
      { github_secret := "TEST_API_KEY", description := "API key for tests",
        required := true } rfl rfl rfl
  · exact (get_secret_resolution demoReMatch (fun _ => none) demoSecretsCfg []
      "OPTIONAL_TOKEN" (cacheCoherent_nil _ _ _)).2.1
      { github_secret := "OPTIONAL_TOKEN", description := "optional token",
        required := false } rfl rfl rfl
  · exact ((get_secret_resolution demoReMatch demoEnv demoSecretsCfg []
      "TEST_API_KEY" (cacheCoherent_nil _ _ _)).2.2.2 "tok_abc123" rfl
      (fun p hp => by
        have hps : "tok_.*" = p := Option.some.inj hp
        subst hps
        decide)).1

/-- Witness for C6 at concrete inputs: the first resolution caches the
value, and the second returns it from the cache even under an environment
where the variable is no longer set. -/
theorem get_secret_idempotent_witness :
    get_secret demoReMatch demoEnv demoSecretsCfg [] "TEST_API_KEY" =
        .ok ("tok_abc123", [("TEST_API_KEY", "tok_abc123")])
    ∧ get_secret demoReMatch (fun _ => none) demoSecretsCfg
        [("TEST_API_KEY", "tok_abc123")] "TEST_API_KEY" =
        .ok ("tok_abc123", [("TEST_API_KEY", "tok_abc123")]) := by
  have h := get_secret_idempotent demoReMatch demoEnv demoSecretsCfg []
    "TEST_API_KEY" "tok_abc123" (cacheCoherent_nil _ _ _) rfl
    (fun p hp => by
      have hps : "tok_.*" = p := Option.some.inj hp
      subst hps
      decide)
  exact ⟨h.1, h.2 demoReMatch (fun _ => none)⟩

/-- Witness for C9 at concrete inputs: a key absent from both the
environment and the mapping raises the not-defined ValueError. -/
theorem get_secret_undeclared_witness :
    get_secret demoReMatch (fun _ => none) demoSecretsCfg [] "UNKNOWN_KEY" =
      .error (.valueError (notDefinedMsg "UNKNOWN_KEY")) :=
  (get_secret_undeclared demoReMatch (fun _ => none) demoSecretsCfg []
    (cacheCoherent_nil _ _ _)).1 "UNKNOWN_KEY" rfl rfl

/-! ## loader.py: ConfigLoader bulk operations

Per-file loading (`_load_yaml`, secrets resolution, pydantic construction)
delegates to the YAML library and pydantic; a directory is modelled as the
ordered list of per-file load outcomes, each an `Except` carrying either the
constructed config or the filename-annotated error message. -/

/-- The loop shared by `load_all_sources` and `load_all_destinations`
(loader.py lines 213-222 and 236-245): a failing file is skipped (after
printing a warning) and a successful config is keyed by its declared name. -/
def loadAllSkipping {α : Type} (name : α → String) :
    List (Except String α) → List (String × α) → List (String × α)
  | [], acc => acc
  | .error _ :: rest, acc => loadAllSkipping name rest acc
  | .ok cfg :: rest, acc => loadAllSkipping name rest (pyInsert (name cfg) cfg acc)

/-- `ConfigLoader.load_all_sources` (loader.py lines 201-222). -/
def load_all_sources (files : List (Except String SourceConfig)) :
    List (String × SourceConfig) :=
  loadAllSkipping SourceConfig.name files []

/-- `ConfigLoader.load_all_destinations` (loader.py lines 224-245). -/
def load_all_destinations (files : List (Except String DestinationConfig)) :
    List (String × DestinationConfig) :=
  loadAllSkipping DestinationConfig.name files []

/-- The loop of `ConfigLoader.load_all_pipelines` (loader.py lines 194-199):
unlike the source and destination loops it has no try/except, so the first
failing file propagates its exception. -/
def load_all_pipelinesAux :
    List (Except String PipelineConfig) → List (String × PipelineConfig) →
      Except String (List (String × PipelineConfig))
  | [], acc => .ok acc
  | .error e :: _, _ => .error e
  | .ok cfg :: rest, acc => load_all_pipelinesAux rest (pyInsert cfg.name cfg acc)

/-- `ConfigLoader.load_all_pipelines` (loader.py lines 182-199). -/
def load_all_pipelines (files : List (Except String PipelineConfig)) :
    Except String (List (String × PipelineConfig)) :=
  load_all_pipelinesAux files []

/-- The configs of the files that loaded successfully, in order. -/
def okConfigs {α : Type} (files : List (Except String α)) : List α :=
  files.filterMap (fun f => f.toOption)

/-- The skipping loop keyed by declared names: a name is a key of the result
exactly when some successfully loaded config declares it (or it was already
a key of the accumulator). -/
theorem loadAllSkipping_alookup {α : Type} (name : α → String)
    (files : List (Except String α)) (acc : List (String × α)) (n : String) :
    (alookup (loadAllSkipping name files acc) n).isSome = true ↔
      n ∈ (okConfigs files).map name ∨ (alookup acc n).isSome = true := by
  induction files generalizing acc with
  | nil => simp [loadAllSkipping, okConfigs]
  | cons hd rest ih =>
      cases hd with
      | error e =>
          rw [show loadAllSkipping name (.error e :: rest) acc =
            loadAllSkipping name rest acc from rfl, ih]
          simp [okConfigs, Except.toOption]
      | ok cfg =>
          rw [show loadAllSkipping name (.ok cfg :: rest) acc =
            loadAllSkipping name rest (pyInsert (name cfg) cfg acc) from rfl, ih]
          by_cases hn : n = name cfg
          · subst hn
            simp only [alookup_pyInsert_self, Option.isSome_some, or_true, true_iff]
            simp [okConfigs, Except.toOption]
          · rw [alookup_pyInsert_ne (name cfg) n cfg acc hn]
            simp only [okConfigs, List.filterMap_cons, Except.toOption, List.map_cons,
              List.mem_cons]
            constructor
            · rintro (h | h)
              · exact Or.inl (Or.inr h)
              · exact Or.inr h
            · rintro (hh | h)
              · rcases hh with hh | hh
                · exact absurd hh hn
                · exact Or.inl hh
              · exact Or.inr h

/-- The pipeline loop on all-successful directories. -/
theorem load_all_pipelinesAux_ok (files : List (Except String PipelineConfig))
    (acc : List (String × PipelineConfig)) (h : ∀ f ∈ files, f.isOk = true) :
    load_all_pipelinesAux files acc =
      .ok ((okConfigs files).foldl (fun acc c => pyInsert c.name c acc) acc) := by
  induction files generalizing acc with
  | nil => simp [load_all_pipelinesAux, okConfigs]
  | cons hd rest ih =>
      cases hd with
      | error e =>
          exact absurd (h _ (List.mem_cons_self _ _)) (by simp [Except.isOk, Except.toBool])
      | ok cfg =>
          rw [show load_all_pipelinesAux (.ok cfg :: rest) acc =
            load_all_pipelinesAux rest (pyInsert cfg.name cfg acc) from rfl,
            ih _ (fun f hf => h f (List.mem_cons_of_mem _ hf))]
          simp [okConfigs, Except.toOption]

/-- The pipeline loop propagates the failure of any failing file. -/
theorem load_all_pipelinesAux_error (files : List (Except String PipelineConfig))
    (acc : List (String × PipelineConfig)) (e : String) (h : Except.error e ∈ files) :
    ∃ e₂, load_all_pipelinesAux files acc = Except.error e₂ := by
  induction files generalizing acc with
  | nil => cases h
  | cons hd rest ih =>
      cases hd with
      | error e₁ => exact ⟨e₁, rfl⟩
      | ok cfg =>
          rcases List.mem_cons.mp h with hh | hh
          · cases hh
          · exact ih (pyInsert cfg.name cfg acc) hh

/-- C3 (amended): `load_all_sources` and `load_all_destinations` skip failing
files and key the result by declared config name (later files overwrite an
earlier file declaring the same name); `load_all_pipelines` instead
propagates the first failing file's exception, and only on an all-successful
directory returns the name-keyed mapping of every loaded config. -/
theorem bulk_load_spec (srcs : List (Except String SourceConfig))
    (dsts : List (Except String DestinationConfig))
    (pips : List (Except String PipelineConfig)) :
    (∀ n, (alookup (load_all_sources srcs) n).isSome = true ↔
        n ∈ (okConfigs srcs).map SourceConfig.name)
  ∧ (∀ n, (alookup (load_all_destinations dsts) n).isSome = true ↔
        n ∈ (okConfigs dsts).map DestinationConfig.name)
  ∧ ((∀ f ∈ pips, f.isOk = true) →
      load_all_pipelines pips =
        .ok ((okConfigs pips).foldl (fun acc c => pyInsert c.name c acc) []))
  ∧ (∀ e, Except.error e ∈ pips → ∃ e₂, load_all_pipelines pips = Except.error e₂) := by
  refine ⟨?_, ?_, ?_, ?_⟩
  · intro n
    rw [load_all_sources, loadAllSkipping_alookup]
    simp [alookup]
  · intro n
    rw [load_all_destinations, loadAllSkipping_alookup]
    simp [alookup]
  · intro h
    exact load_all_pipelinesAux_ok pips [] h
  · intro e h
    exact load_all_pipelinesAux_error pips [] e h

/-- C3 counterexample: a directory whose first pipeline file fails to load
makes `load_all_pipelines` abort with that error — the successfully loading
`test_pipeline` file is not returned — while the same situation on the
sources side is skipped as the claim describes. -/
theorem load_all_pipelines_aborts :
    load_all_pipelines
        [Except.error "Invalid pipeline configuration in bad.yaml: schema violation",
          Except.ok fixturePipeline] =
      Except.error "Invalid pipeline configuration in bad.yaml: schema violation"
    ∧ load_all_sources
        [Except.error "Invalid source configuration in bad.yaml: schema violation",
          Except.ok fixtureSource] =
      [("test_source", fixtureSource)] := by
  exact ⟨rfl, rfl⟩

/-! ## secrets_resolver.py: SecretsResolver.resolve_dict -/

/-- Python `s.endswith(t)` over the characters. -/
def pyEndsWith (s t : String) : Bool :=
  t.data.isSuffixOf s.data

/-- The loop of Python `s.replace(old, "")`: scan left to right, deleting
each non-overlapping occurrence of `pat`. Structural recursion on a fuel of
`l.length` (one character is consumed per step, so that fuel is exact). -/
def stripAllAux (pat : List Char) : Nat → List Char → List Char
  | 0, l => l
  | _ + 1, [] => []
  | n + 1, c :: rest =>
      if pat.isPrefixOf (c :: rest) && !pat.isEmpty then
        stripAllAux pat n ((c :: rest).drop pat.length)
      else c :: stripAllAux pat n rest

/-- Python `s.replace(pat, "")`: delete every occurrence of `pat` in `s`,
left to right, non-overlapping (secrets_resolver.py line 96 uses
`key.replace("_secret_key", "")`, which deletes every occurrence, not just
a suffix). -/
def pyReplaceDel (s pat : String) : String :=
  ⟨stripAllAux pat.data s.data.length s.data⟩

mutual

/-- `SecretsResolver.resolve_dict`, the dict loop (secrets_resolver.py lines
81-101): entries processed in order into the `resolved` accumulator dict;
nested dicts recurse, lists are traversed one level (dict elements recurse,
all other elements pass through), a string value under a key ending in
`_secret_key` is resolved through `get_secret` and re-keyed by
`key.replace("_secret_key", "")`, everything else passes through. The
resolver cache is threaded through the `get_secret` calls. Fuel-indexed
(fuel exhaustion is Python's RecursionError; the `resolve_dict` wrapper
supplies fuel that the strictly decreasing recursion never exhausts). -/
def resolveEntriesFuel (reMatch : String → String → Bool) (env : String → Option String)
    (cfg : SecretsConfig) :
    Nat → List (String × Value) → List (String × Value) → List (String × String) →
      Except PyErr (List (String × Value) × List (String × String))
  | 0, _, _, _ => .error .recursionError
  | _ + 1, [], resolved, cache => .ok (resolved, cache)
  | fuel + 1, (key, value) :: rest, resolved, cache =>
    match value with
    | .vdict d =>
        match resolveEntriesFuel reMatch env cfg fuel d [] cache with
        | .error e => .error e
        | .ok (d₂, cache₂) =>
            resolveEntriesFuel reMatch env cfg fuel rest
              (pyInsert key (.vdict d₂) resolved) cache₂
    | .vlist items =>
        match resolveItemsFuel reMatch env cfg fuel items cache with
        | .error e => .error e
        | .ok (items₂, cache₂) =>
            resolveEntriesFuel reMatch env cfg fuel rest
              (pyInsert key (.vlist items₂) resolved) cache₂
    | .vstr s =>
        if pyEndsWith key "_secret_key" then
          match get_secret reMatch env cfg cache s with
          | .error e => .error e
          | .ok (sv, cache₂) =>
              resolveEntriesFuel reMatch env cfg fuel rest
                (pyInsert (pyReplaceDel key "_secret_key") (.vstr sv) resolved) cache₂
        else
          resolveEntriesFuel reMatch env cfg fuel rest (pyInsert key (.vstr s) resolved) cache
    | v => resolveEntriesFuel reMatch env cfg fuel rest (pyInsert key v resolved) cache

/-- The list branch of `resolve_dict` (secrets_resolver.py lines 86-93):
elements in order, dict elements resolved, everything else appended
unchanged (nested lists are not descended into). -/
def resolveItemsFuel (reMatch : String → String → Bool) (env : String → Option String)
    (cfg : SecretsConfig) :
    Nat → List Value → List (String × String) →
      Except PyErr (List Value × List (String × String))
  | 0, _, _ => .error .recursionError
  | _ + 1, [], cache => .ok ([], cache)
  | fuel + 1, item :: rest, cache =>
    match item with
    | .vdict d =>
        match resolveEntriesFuel reMatch env cfg fuel d [] cache with
        | .error e => .error e
        | .ok (d₂, cache₂) =>
            match resolveItemsFuel reMatch env cfg fuel rest cache₂ with
            | .error e => .error e
            | .ok (rest₂, cache₃) => .ok (.vdict d₂ :: rest₂, cache₃)
    | v =>
        match resolveItemsFuel reMatch env cfg fuel rest cache with
        | .error e => .error e
        | .ok (rest₂, cache₂) => .ok (v :: rest₂, cache₂)

end

mutual

/-- Structural size of a value, the fuel bound for `resolve_dict`. -/
def valueSize : Value → Nat
  | .vstr _ => 1
  | .vint _ => 1
  | .vbool _ => 1
  | .vnone => 1
  | .vlist items => 1 + itemsSize items
  | .vdict entries => 1 + entriesSize entries

/-- Structural size of a value list. -/
def itemsSize : List Value → Nat
  | [] => 1
  | v :: rest => 1 + valueSize v + itemsSize rest

/-- Structural size of an entry list. -/
def entriesSize : List (String × Value) → Nat
  | [] => 1
  | (_, v) :: rest => 1 + valueSize v + entriesSize rest

end

/-- `SecretsResolver.resolve_dict` (secrets_resolver.py lines 69-101): the
entry point; every recursive call strictly decreases the structural size of
the traversed list, so `entriesSize data` fuel is never exhausted. -/
def resolve_dict (reMatch : String → String → Bool) (env : String → Option String)
    (cfg : SecretsConfig) (data : List (String × Value)) (cache : List (String × String)) :
    Except PyErr (List (String × Value) × List (String × String)) :=
  resolveEntriesFuel reMatch env cfg (entriesSize data) data [] cache

/-- The pure value a successful `get_secret` call returns for reference `s`:
the environment value, or the empty string for a missing optional secret. -/
def specSecret (env : String → Option String) (s : String) : String :=
  (env s).getD ""

/-- Collapse a list of entries into a Python dict by repeated assignment
(later entries overwrite earlier ones with the same key). -/
def fromEntries (l : List (String × Value)) : List (String × Value) :=
  l.foldl (fun acc e => pyInsert e.1 e.2 acc) []

mutual

/-- Modelled from the claim (as amended): the entrywise transformation
`resolve_dict` is claimed to perform — non-suffixed keys kept with their
values (nested dicts resolved recursively, lists resolved one level), a
`_secret_key`-suffixed key with a string value re-keyed by deleting every
occurrence of the suffix and mapped to the resolved secret value. Written
against the pure environment, with no cache and no exception plumbing. -/
def specEntryMap (env : String → Option String) :
    List (String × Value) → List (String × Value)
  | [] => []
  | (key, .vdict d) :: rest =>
      (key, .vdict (fromEntries (specEntryMap env d))) :: specEntryMap env rest
  | (key, .vlist items) :: rest =>
      (key, .vlist (specItemMap env items)) :: specEntryMap env rest
  | (key, .vstr s) :: rest =>
      (if pyEndsWith key "_secret_key" then
          (pyReplaceDel key "_secret_key", Value.vstr (specSecret env s))
        else (key, Value.vstr s)) :: specEntryMap env rest
  | (key, v) :: rest => (key, v) :: specEntryMap env rest

/-- The one-level list transformation of the claim: dict elements resolved,
all other elements unchanged. -/
def specItemMap (env : String → Option String) : List Value → List Value
  | [] => []
  | .vdict d :: rest => .vdict (fromEntries (specEntryMap env d)) :: specItemMap env rest
  | v :: rest => v :: specItemMap env rest

end

/-- The claimed (amended) result of `resolve_dict`: transform each entry and
collapse colliding keys by dict assignment. -/
def specResolve (env : String → Option String) (data : List (String × Value)) :
    List (String × Value) :=
  fromEntries (specEntryMap env data)

/-- Inserting a validated environment value keeps the cache coherent. -/
theorem cacheCoherent_insert (reMatch : String → String → Bool)
    (env : String → Option String) (cfg : SecretsConfig) (cache : List (String × String))
    (k v : String) (hc : CacheCoherent reMatch env cfg cache)
    (henv : env k = some v) (hp : patternOk reMatch cfg k v) :
    CacheCoherent reMatch env cfg (pyInsert k v cache) := by
  intro k₂ w hw
  by_cases hk : k₂ = k
  · subst hk
    rw [alookup_pyInsert_self] at hw
    rw [← Option.some.inj hw]
    exact ⟨henv, hp⟩
  · rw [alookup_pyInsert_ne k k₂ v cache hk] at hw
    exact hc k₂ w hw

/-- A successful `get_secret` under a coherent cache returns the pure
environment-determined value and leaves the cache coherent. -/
theorem get_secret_ok_coherent (reMatch : String → String → Bool)
    (env : String → Option String) (cfg : SecretsConfig) (cache : List (String × String))
    (s sv : String) (c₂ : List (String × String))
    (hc : CacheCoherent reMatch env cfg cache)
    (hrun : get_secret reMatch env cfg cache s = .ok (sv, c₂)) :
    sv = specSecret env s ∧ CacheCoherent reMatch env cfg c₂ := by
  cases hcc : alookup cache s with
  | some w =>
      simp only [get_secret, hcc, Except.ok.injEq, Prod.mk.injEq] at hrun
      obtain ⟨hsv, hcache⟩ := hrun
      have hw := hc s w hcc
      subst hsv hcache
      rw [specSecret, hw.1]
      exact ⟨rfl, hc⟩
  | none =>
      cases henv : env s with
      | none =>
          cases hmap : alookup cfg.secrets s with
          | none => simp [get_secret, hcc, henv, hmap] at hrun
          | some info =>
              by_cases hreq : info.required = true
              · simp [get_secret, hcc, henv, hmap, hreq] at hrun
              · simp only [get_secret, hcc, henv, hmap, if_neg hreq, Except.ok.injEq,
                  Prod.mk.injEq] at hrun
                obtain ⟨hsv, hcache⟩ := hrun
                subst hsv hcache
                rw [specSecret, henv]
                exact ⟨rfl, hc⟩
      | some v =>
          cases hpat : alookup cfg.validation.patterns s with
          | none =>
              simp only [get_secret, hcc, henv, hpat, Except.ok.injEq, Prod.mk.injEq] at hrun
              obtain ⟨hsv, hcache⟩ := hrun
              subst hsv hcache
              rw [specSecret, henv]
              refine ⟨rfl, cacheCoherent_insert reMatch env cfg cache s v hc henv ?_⟩
              intro p hp
              rw [hpat] at hp
              cases hp
          | some p =>
              by_cases hm : reMatch p v = true
              · simp only [get_secret, hcc, henv, hpat, if_pos hm, Except.ok.injEq,
                  Prod.mk.injEq] at hrun
                obtain ⟨hsv, hcache⟩ := hrun
                subst hsv hcache
                rw [specSecret, henv]
                refine ⟨rfl, cacheCoherent_insert reMatch env cfg cache s v hc henv ?_⟩
                intro p₂ hp₂
                rw [hpat] at hp₂
                rw [← Option.some.inj hp₂]
                exact hm
              · simp [get_secret, hcc, henv, hpat, hm] at hrun

/-- The fuel-indexed resolver loops refine the pure claim-side
transformations: a successful run produces exactly the mapped-and-collapsed
entries (for the dict loop, folded on top of the accumulator), and keeps the
cache coherent. -/
theorem resolveFuel_spec (reMatch : String → String → Bool)
    (env : String → Option String) (cfg : SecretsConfig) (fuel : Nat) :
    (∀ entries resolved cache r c₂, CacheCoherent reMatch env cfg cache →
        resolveEntriesFuel reMatch env cfg fuel entries resolved cache = .ok (r, c₂) →
        r = (specEntryMap env entries).foldl (fun acc e => pyInsert e.1 e.2 acc) resolved ∧
          CacheCoherent reMatch env cfg c₂)
  ∧ (∀ items cache r c₂, CacheCoherent reMatch env cfg cache →
        resolveItemsFuel reMatch env cfg fuel items cache = .ok (r, c₂) →
        r = specItemMap env items ∧ CacheCoherent reMatch env cfg c₂) := by
  induction fuel with
  | zero =>
      constructor
      · intro entries resolved cache r c₂ _ hrun
        simp [resolveEntriesFuel] at hrun
      · intro items cache r c₂ _ hrun
        simp [resolveItemsFuel] at hrun
  | succ fuel ih =>
      obtain ⟨ihE, ihI⟩ := ih
      constructor
      · intro entries resolved cache r c₂ hc hrun
        cases entries with
        | nil =>
            simp only [resolveEntriesFuel, Except.ok.injEq, Prod.mk.injEq] at hrun
            obtain ⟨hr, hcache⟩ := hrun
            subst hr hcache
            exact ⟨by simp [specEntryMap], hc⟩
        | cons hd rest =>
            obtain ⟨key, value⟩ := hd
            cases value with
            | vdict d =>
                simp only [resolveEntriesFuel] at hrun
                cases hnest : resolveEntriesFuel reMatch env cfg fuel d [] cache with
                | error e => simp [hnest] at hrun
                | ok pr =>
                    obtain ⟨d₂, cache₂⟩ := pr
                    simp only [hnest] at hrun
                    obtain ⟨hd₂, hc₂⟩ := ihE d [] cache d₂ cache₂ hc hnest
                    obtain ⟨hr, hc₃⟩ := ihE rest _ cache₂ r c₂ hc₂ hrun
                    refine ⟨?_, hc₃⟩
                    rw [hr, hd₂]
                    simp [specEntryMap, fromEntries]
            | vlist items =>
                simp only [resolveEntriesFuel] at hrun
                cases hnest : resolveItemsFuel reMatch env cfg fuel items cache with
                | error e => simp [hnest] at hrun
                | ok pr =>
                    obtain ⟨items₂, cache₂⟩ := pr
                    simp only [hnest] at hrun
                    obtain ⟨hi₂, hc₂⟩ := ihI items cache items₂ cache₂ hc hnest
                    obtain ⟨hr, hc₃⟩ := ihE rest _ cache₂ r c₂ hc₂ hrun
                    refine ⟨?_, hc₃⟩
                    rw [hr, hi₂]
                    simp [specEntryMap]
            | vstr s =>
                simp only [resolveEntriesFuel] at hrun
                by_cases hsuf : pyEndsWith key "_secret_key" = true
                · rw [if_pos hsuf] at hrun
                  cases hgs : get_secret reMatch env cfg cache s with
                  | error e => simp [hgs] at hrun
                  | ok pr =>
                      obtain ⟨sv, cache₂⟩ := pr
                      simp only [hgs] at hrun
                      obtain ⟨hsv, hc₂⟩ :=
                        get_secret_ok_coherent reMatch env cfg cache s sv cache₂ hc hgs
                      obtain ⟨hr, hc₃⟩ := ihE rest _ cache₂ r c₂ hc₂ hrun
                      refine ⟨?_, hc₃⟩
                      rw [hr, hsv]
                      simp [specEntryMap, hsuf]
                · rw [if_neg hsuf] at hrun
                  obtain ⟨hr, hc₂⟩ := ihE rest _ cache r c₂ hc hrun
                  refine ⟨?_, hc₂⟩
                  rw [hr]
                  simp [specEntryMap, hsuf]
            | vint n =>
                simp only [resolveEntriesFuel] at hrun
                obtain ⟨hr, hc₂⟩ := ihE rest _ cache r c₂ hc hrun
                exact ⟨by rw [hr]; simp [specEntryMap], hc₂⟩
            | vbool b =>
                simp only [resolveEntriesFuel] at hrun
                obtain ⟨hr, hc₂⟩ := ihE rest _ cache r c₂ hc hrun
                exact ⟨by rw [hr]; simp [specEntryMap], hc₂⟩
            | vnone =>
                simp only [resolveEntriesFuel] at hrun
                obtain ⟨hr, hc₂⟩ := ihE rest _ cache r c₂ hc hrun
                exact ⟨by rw [hr]; simp [specEntryMap], hc₂⟩
      · intro items cache r c₂ hc hrun
        cases items with
        | nil =>
            simp only [resolveItemsFuel, Except.ok.injEq, Prod.mk.injEq] at hrun
            obtain ⟨hr, hcache⟩ := hrun
            subst hr hcache
            exact ⟨by simp [specItemMap], hc⟩
        | cons item rest =>
            cases item with
            | vdict d =>
                simp only [resolveItemsFuel] at hrun
                cases hnest : resolveEntriesFuel reMatch env cfg fuel d [] cache with
                | error e => simp [hnest] at hrun
                | ok pr =>
                    obtain ⟨d₂, cache₂⟩ := pr
                    simp only [hnest] at hrun
                    obtain ⟨hd₂, hc₂⟩ := ihE d [] cache d₂ cache₂ hc hnest
                    cases hrest : resolveItemsFuel reMatch env cfg fuel rest cache₂ with
                    | error e => simp [hrest] at hrun
                    | ok pr₂ =>
                        obtain ⟨rest₂, cache₃⟩ := pr₂
                        simp only [hrest] at hrun
                        obtain ⟨hr₂, hc₃⟩ := ihI rest cache₂ rest₂ cache₃ hc₂ hrest
                        simp only [Except.ok.injEq, Prod.mk.injEq] at hrun
                        obtain ⟨hrr, hcache⟩ := hrun
                        subst hrr hcache
                        refine ⟨?_, hc₃⟩
                        rw [hd₂, hr₂]
                        simp [specItemMap, fromEntries]
            | vstr s =>
                simp only [resolveItemsFuel] at hrun
                cases hrest : resolveItemsFuel reMatch env cfg fuel rest cache with
                | error e => simp [hrest] at hrun
                | ok pr₂ =>
                    obtain ⟨rest₂, cache₂⟩ := pr₂
                    simp only [hrest] at hrun
                    obtain ⟨hr₂, hc₂⟩ := ihI rest cache rest₂ cache₂ hc hrest
                    simp only [Except.ok.injEq, Prod.mk.injEq] at hrun
                    obtain ⟨hrr, hcache⟩ := hrun
                    subst hrr hcache
                    exact ⟨by rw [hr₂]; simp [specItemMap], hc₂⟩
            | vint n =>
                simp only [resolveItemsFuel] at hrun
                cases hrest : resolveItemsFuel reMatch env cfg fuel rest cache with
                | error e => simp [hrest] at hrun
                | ok pr₂ =>
                    obtain ⟨rest₂, cache₂⟩ := pr₂
                    simp only [hrest] at hrun
                    obtain ⟨hr₂, hc₂⟩ := ihI rest cache rest₂ cache₂ hc hrest
                    simp only [Except.ok.injEq, Prod.mk.injEq] at hrun
                    obtain ⟨hrr, hcache⟩ := hrun
                    subst hrr hcache
                    exact ⟨by rw [hr₂]; simp [specItemMap], hc₂⟩
            | vbool b =>
                simp only [resolveItemsFuel] at hrun
                cases hrest : resolveItemsFuel reMatch env cfg fuel rest cache with
                | error e => simp [hrest] at hrun
                | ok pr₂ =>
                    obtain ⟨rest₂, cache₂⟩ := pr₂
                    simp only [hrest] at hrun
                    obtain ⟨hr₂, hc₂⟩ := ihI rest cache rest₂ cache₂ hc hrest
                    simp only [Except.ok.injEq, Prod.mk.injEq] at hrun
                    obtain ⟨hrr, hcache⟩ := hrun
                    subst hrr hcache
                    exact ⟨by rw [hr₂]; simp [specItemMap], hc₂⟩
            | vnone =>
                simp only [resolveItemsFuel] at hrun
                cases hrest : resolveItemsFuel reMatch env cfg fuel rest cache with
                | error e => simp [hrest] at hrun
                | ok pr₂ =>
                    obtain ⟨rest₂, cache₂⟩ := pr₂
                    simp only [hrest] at hrun
                    obtain ⟨hr₂, hc₂⟩ := ihI rest cache rest₂ cache₂ hc hrest
                    simp only [Except.ok.injEq, Prod.mk.injEq] at hrun
                    obtain ⟨hrr, hcache⟩ := hrun
                    subst hrr hcache
                    exact ⟨by rw [hr₂]; simp [specItemMap], hc₂⟩
            | vlist items₂ =>
                simp only [resolveItemsFuel] at hrun
                cases hrest : resolveItemsFuel reMatch env cfg fuel rest cache with
                | error e => simp [hrest] at hrun
                | ok pr₂ =>
                    obtain ⟨rest₂, cache₂⟩ := pr₂
                    simp only [hrest] at hrun
                    obtain ⟨hr₂, hc₂⟩ := ihI rest cache rest₂ cache₂ hc hrest
                    simp only [Except.ok.injEq, Prod.mk.injEq] at hrun
                    obtain ⟨hrr, hcache⟩ := hrun
                    subst hrr hcache
                    exact ⟨by rw [hr₂]; simp [specItemMap], hc₂⟩

/-- C4 (amended): whenever `resolve_dict` returns (starting from a coherent,
e.g. empty, cache), its result is exactly the claim-side transformation:
entries mapped as described — nested dicts recursively, lists one level
deep, `X_secret_key` string entries renamed by deleting every occurrence of
`_secret_key` and resolved against the environment — and then collapsed by
Python dict assignment, so an entry whose transformed key collides with an
earlier one overwrites it. -/
theorem resolve_dict_matches_spec (reMatch : String → String → Bool)
    (env : String → Option String) (cfg : SecretsConfig)
    (data : List (String × Value)) (cache : List (String × String))
    (r : List (String × Value)) (c₂ : List (String × String))
    (hc : CacheCoherent reMatch env cfg cache)
    (hrun : resolve_dict reMatch env cfg data cache = .ok (r, c₂)) :
    r = specResolve env data := by
  have h := (resolveFuel_spec reMatch env cfg (entriesSize data)).1 data [] cache r c₂ hc hrun
  rw [h.1]
  rfl

/-- The environment used by the resolve_dict scenario: the secret reference
`K` resolves to `s3cr3t`. -/
def demoEnvK : String → Option String :=
  fun k => if k = "K" then some "s3cr3t" else none

/-- C4 counterexample: on `{"api": 1, "api_secret_key": "K"}` the renamed
secret entry overwrites the plain `api` entry, so the non-secret key `api`
is not present with its original value `1` as the claim requires. -/
theorem resolve_dict_overwrites_plain_key :
    resolve_dict demoReMatch demoEnvK demoSecretsCfg
        [("api", Value.vint 1), ("api_secret_key", Value.vstr "K")] [] =
      .ok ([("api", Value.vstr "s3cr3t")], [("K", "s3cr3t")])
    ∧ alookup [(("api" : String), Value.vstr "s3cr3t")] "api" ≠ some (Value.vint 1) := by
  constructor
  · simp only [resolve_dict, entriesSize, valueSize]
    rfl
  · decide

/-- Witness for C4 at the concrete input: the run returns and its result is
the claim-side transformation of the input. -/
theorem resolve_dict_matches_spec_witness :
    ([(("api" : String), Value.vstr "s3cr3t")] : List (String × Value)) =
      specResolve demoEnvK [("api", Value.vint 1), ("api_secret_key", Value.vstr "K")] :=
  resolve_dict_matches_spec demoReMatch demoEnvK demoSecretsCfg
    [("api", Value.vint 1), ("api_secret_key", Value.vstr "K")] []
    [("api", Value.vstr "s3cr3t")] [("K", "s3cr3t")]
    (cacheCoherent_nil _ _ _)
    (by simp only [resolve_dict, entriesSize, valueSize]; rfl)

/-! ## orchestration/main.py: execute_job_flow, dag mode -/

/-- `JobPipelineConfig` of models.py. -/
structure JobPipelineConfig where
  name : String
  order : Int := 0
  depends_on : List String := []
  parameters : List (String × Value) := []
  enabled : Bool := true
  continue_on_failure : Bool := false
deriving DecidableEq

/-- `JobExecutionConfig` of models.py. -/
structure JobExecutionConfig where
  mode : String := "dag"
  max_parallelism : Nat := 5
  continue_on_failure : Bool := false
  timeout : Option Nat := Option.none
deriving DecidableEq

/-- `JobConfig` of models.py (retry/notification/SLA/metadata sub-records
are not touched by any claim and are omitted from the record). -/
structure JobConfig where
  name : String
  description : Option String := Option.none
  tags : List String := []
  dependencies : List String := []
  pipelines : List JobPipelineConfig
  execution : JobExecutionConfig := {}
deriving DecidableEq

/-- Errors the dag loop can raise: the `ValueError("Circular dependency or
missing pipeline: ...")` of main.py line 149, or the propagated exception of
a failed pipeline whose step has `continue_on_failure = false`. -/
inductive DagErr where
  | circular (remaining : List String)
  | pipelineFailed (name : String)
deriving DecidableEq

/-- The ready frontier (main.py lines 143-145): pending steps that are
enabled and whose `depends_on` are all in the executed set. -/
def readyFilter (executed : List String) (pending : List JobPipelineConfig) :
    List JobPipelineConfig :=
  pending.filter (fun p => p.enabled && p.depends_on.all (fun d => executed.contains d))

/-- The batch dispatch-and-collect loop (main.py lines 152-169): each ready
step runs (`success` abstracts the external task's outcome); a success adds
the step's name to the executed set, a failure with `continue_on_failure`
is logged and skipped, any other failure re-raises; the `finally` removes
the step from the pending list in every case that continues. -/
def runBatch (success : String → Bool) :
    List JobPipelineConfig → List String → List JobPipelineConfig →
      Except DagErr (List String × List JobPipelineConfig)
  | [], executed, pending => .ok (executed, pending)
  | r :: rest, executed, pending =>
      if success r.name then runBatch success rest (executed ++ [r.name]) (pending.erase r)
      else if r.continue_on_failure then runBatch success rest executed (pending.erase r)
      else .error (.pipelineFailed r.name)

/-- A successful batch never grows the pending list. -/
theorem runBatch_ok_length_le (success : String → Bool) :
    ∀ (l : List JobPipelineConfig) (executed : List String)
      (pending : List JobPipelineConfig) (e₂ : List String)
      (p₂ : List JobPipelineConfig),
      runBatch success l executed pending = .ok (e₂, p₂) → p₂.length ≤ pending.length := by
  intro l
  induction l with
  | nil =>
      intro executed pending e₂ p₂ h
      simp only [runBatch, Except.ok.injEq, Prod.mk.injEq] at h
      rw [← h.2]
  | cons r rest ih =>
      intro executed pending e₂ p₂ h
      simp only [runBatch] at h
      by_cases hs : success r.name = true
      · rw [if_pos hs] at h
        exact le_trans (ih _ _ _ _ h) (pending.erase_sublist r).length_le
      · rw [if_neg hs] at h
        by_cases hcf : r.continue_on_failure = true
        · rw [if_pos hcf] at h
          exact le_trans (ih _ _ _ _ h) (pending.erase_sublist r).length_le
        · rw [if_neg hcf] at h
          cases h

/-- A successful nonempty batch whose head is pending strictly shrinks the
pending list. -/
theorem runBatch_ok_length_lt (success : String → Bool)
    (r : JobPipelineConfig) (rest : List JobPipelineConfig) (executed : List String)
    (pending : List JobPipelineConfig) (e₂ : List String) (p₂ : List JobPipelineConfig)
    (h : runBatch success (r :: rest) executed pending = .ok (e₂, p₂))
    (hmem : r ∈ pending) : p₂.length < pending.length := by
  have hlt : (pending.erase r).length < pending.length := by
    rw [List.length_erase_of_mem hmem]
    have : 1 ≤ pending.length := List.length_pos.mpr (List.ne_nil_of_mem hmem)
    omega
  simp only [runBatch] at h
  by_cases hs : success r.name = true
  · rw [if_pos hs] at h
    exact lt_of_le_of_lt (runBatch_ok_length_le success rest _ _ _ _ h) hlt
  · rw [if_neg hs] at h
    by_cases hcf : r.continue_on_failure = true
    · rw [if_pos hcf] at h
      exact lt_of_le_of_lt (runBatch_ok_length_le success rest _ _ _ _ h) hlt
    · rw [if_neg hcf] at h
      cases h

/-- The dag loop of `execute_job_flow` (main.py lines 136-169): while steps
are pending, compute the ready frontier; raise the circular-dependency
ValueError (whose message lists the enabled pending step names) when it is
empty; otherwise dispatch the frontier as a batch and continue. -/
def execDag (success : String → Bool) (executed : List String)
    (pending : List JobPipelineConfig) : Except DagErr (List String) :=
  match pending with
  | [] => .ok executed
  | p₀ :: ptail =>
    match hr : readyFilter executed (p₀ :: ptail) with
    | [] =>
        .error (.circular (((p₀ :: ptail).filter (fun p => p.enabled)).map (fun p => p.name)))
    | r :: rest =>
      match hb : runBatch success (r :: rest) executed (p₀ :: ptail) with
      | .error e => .error e
      | .ok (executed₂, pending₂) => execDag success executed₂ pending₂
termination_by pending.length
decreasing_by
  have hmem : r ∈ p₀ :: ptail := by
    have hin : r ∈ readyFilter executed (p₀ :: ptail) := by
      rw [hr]
      exact List.mem_cons_self r rest
    exact List.mem_of_mem_filter hin
  exact runBatch_ok_length_lt success r rest executed (p₀ :: ptail) executed₂ pending₂ hb hmem

/-- The `mode == "dag"` branch of `execute_job_flow` (main.py lines
136-169), with the per-pipeline task execution abstracted by `success`. -/
def execute_job_flow_dag (success : String → Bool) (job : JobConfig) :
    Except DagErr (List String) :=
  execDag success [] job.pipelines

/-- Unfolding: an empty pending list completes the job. -/
theorem execDag_nil (s : String → Bool) (e : List String) : execDag s e [] = .ok e := by
  rw [execDag]

/-- Unfolding: no step ready while steps remain raises the
circular-dependency ValueError. -/
theorem execDag_stuck (s : String → Bool) (e : List String) (p : List JobPipelineConfig)
    (hp : p ≠ []) (hr : readyFilter e p = []) :
    execDag s e p =
      .error (.circular ((p.filter (fun q => q.enabled)).map (fun q => q.name))) := by
  obtain ⟨p₀, ptail, rfl⟩ := List.exists_cons_of_ne_nil hp
  rw [execDag]
  split
  · rfl
  · rename_i r rest heq
    rw [hr] at heq
    cases heq

/-- Unfolding: a nonempty frontier is dispatched and the loop continues. -/
theorem execDag_step (s : String → Bool) (e : List String) (p : List JobPipelineConfig)
    (r : JobPipelineConfig) (rest : List JobPipelineConfig) (e₂ : List String)
    (p₂ : List JobPipelineConfig)
    (hr : readyFilter e p = r :: rest) (hb : runBatch s (r :: rest) e p = .ok (e₂, p₂)) :
    execDag s e p = execDag s e₂ p₂ := by
  have hp : p ≠ [] := by
    intro hnil
    rw [hnil] at hr
    simp [readyFilter] at hr
  obtain ⟨p₀, ptail, rfl⟩ := List.exists_cons_of_ne_nil hp
  rw [execDag]
  split
  · rename_i heq
    rw [hr] at heq
    cases heq
  · rename_i r₂ rest₂ heq
    rw [hr] at heq
    cases heq
    split
    · rename_i e₃ heq₂
      rw [hb] at heq₂
      cases heq₂
    · rename_i e₃ p₃ heq₂
      rw [hb] at heq₂
      cases heq₂
      rfl

/-- With every dispatched task succeeding, a batch always returns: the
executed set gains the batch's names in order and the pending list loses
the batch's members. -/
theorem runBatch_true (l : List JobPipelineConfig) (executed : List String)
    (pending : List JobPipelineConfig) :
    runBatch (fun _ => true) l executed pending =
      .ok (executed ++ l.map (fun q => q.name),
        l.foldl (fun acc q => acc.erase q) pending) := by
  induction l generalizing executed pending with
  | nil => simp [runBatch]
  | cons r rest ih =>
      simp [runBatch, ih, List.append_assoc]

/-- An element not in the erased batch stays pending. -/
theorem mem_foldl_erase_of_not_mem (x : JobPipelineConfig)
    (l pending : List JobPipelineConfig) (hx : x ∈ pending) (hnot : x ∉ l) :
    x ∈ l.foldl (fun acc q => acc.erase q) pending := by
  induction l generalizing pending with
  | nil => exact hx
  | cons r rest ih =>
      rw [List.foldl_cons]
      refine ih (pending.erase r) ?_ (fun hmem => hnot (List.mem_cons_of_mem r hmem))
      rw [List.mem_erase_of_ne
        (fun heq => hnot (by rw [heq]; exact List.mem_cons_self r rest))]
      exact hx

/-- Batch erasure only removes elements. -/
theorem mem_of_mem_foldl_erase (x : JobPipelineConfig)
    (l pending : List JobPipelineConfig)
    (hx : x ∈ l.foldl (fun acc q => acc.erase q) pending) : x ∈ pending := by
  induction l generalizing pending with
  | nil => exact hx
  | cons r rest ih =>
      rw [List.foldl_cons] at hx
      exact (pending.erase_sublist r).mem (ih _ hx)

/-- A pending element that disappears under batch erasure was in the batch. -/
theorem mem_batch_of_not_mem_foldl_erase (x : JobPipelineConfig)
    (l pending : List JobPipelineConfig) (hx : x ∈ pending)
    (hnot : x ∉ l.foldl (fun acc q => acc.erase q) pending) : x ∈ l := by
  induction l generalizing pending with
  | nil => exact absurd hx hnot
  | cons r rest ih =>
      rw [List.foldl_cons] at hnot
      by_cases hxr : x = r
      · exact hxr ▸ List.mem_cons_self r rest
      · refine List.mem_cons_of_mem r (ih (pending.erase r) ?_ hnot)
        rw [List.mem_erase_of_ne hxr]
        exact hx

/-- The engine of the negative results: a state predicate that forces a
nonempty pending list and survives every all-successful dispatch round can
only end in the circular-dependency error. -/
theorem execDag_error_of_invariant (Inv : List String → List JobPipelineConfig → Prop)
    (hne : ∀ e p, Inv e p → p ≠ [])
    (hstep : ∀ e p r rest, Inv e p → readyFilter e p = r :: rest →
        Inv (e ++ (r :: rest).map (fun q => q.name))
          ((r :: rest).foldl (fun acc q => acc.erase q) p)) :
    ∀ (p : List JobPipelineConfig) (e : List String), Inv e p →
      ∃ ns, execDag (fun _ => true) e p = .error (.circular ns) := by
  suffices H : ∀ (n : ℕ) (p : List JobPipelineConfig) (e : List String), p.length ≤ n →
      Inv e p → ∃ ns, execDag (fun _ => true) e p = .error (.circular ns) by
    exact fun p e h => H p.length p e le_rfl h
  intro n
  induction n with
  | zero =>
      intro p e hlen hInv
      have := hne e p hInv
      cases p with
      | nil => exact absurd rfl this
      | cons a t => simp at hlen
  | succ n ih =>
      intro p e hlen hInv
      have hpne := hne e p hInv
      cases hr : readyFilter e p with
      | nil =>
          exact ⟨_, execDag_stuck (fun _ => true) e p hpne hr⟩
      | cons r rest =>
          have hb := runBatch_true (r :: rest) e p
          have hmem : r ∈ p := by
            have hin : r ∈ readyFilter e p := by
              rw [hr]
              exact List.mem_cons_self r rest
            exact List.mem_of_mem_filter hin
          have hlt := runBatch_ok_length_lt (fun _ => true) r rest e p _ _ hb hmem
          have hInv₂ := hstep e p r rest hInv hr
          obtain ⟨ns, hns⟩ := ih _ _ (by omega) hInv₂
          exact ⟨ns, (execDag_step (fun _ => true) e p r rest _ _ hr hb).trans hns⟩

/-- A member of the ready frontier is enabled. -/
theorem enabled_of_mem_readyFilter (e : List String) (p : List JobPipelineConfig)
    (q : JobPipelineConfig) (hq : q ∈ readyFilter e p) : q.enabled = true := by
  have := List.of_mem_filter hq
  exact (Bool.and_eq_true_iff.mp this).1

/-- A member of the ready frontier has all dependencies executed. -/
theorem deps_of_mem_readyFilter (e : List String) (p : List JobPipelineConfig)
    (q : JobPipelineConfig) (hq : q ∈ readyFilter e p) :
    ∀ d ∈ q.depends_on, d ∈ e := by
  have := List.of_mem_filter hq
  have hall := (Bool.and_eq_true_iff.mp this).2
  intro d hd
  have := List.all_eq_true.mp hall d hd
  simpa using this

/-- C10: in dag mode a disabled step is never dispatched and never leaves
the pending list, so a job containing any disabled pipeline can never drain
its pending list: with every dispatched pipeline succeeding, the flow ends
in the "Circular dependency or missing pipeline" ValueError even when the
dependency graph is acyclic and self-contained. -/
theorem dag_disabled_pipeline_raises (job : JobConfig)
    (hdis : ∃ p ∈ job.pipelines, p.enabled = false) :
    ∃ ns, execute_job_flow_dag (fun _ => true) job = .error (.circular ns) := by
  refine execDag_error_of_invariant
    (fun _ p => ∃ q ∈ p, q.enabled = false) ?_ ?_ job.pipelines [] hdis
  · rintro e p ⟨q, hq, _⟩
    exact List.ne_nil_of_mem hq
  · rintro e p r rest ⟨q, hq, hqdis⟩ hr
    refine ⟨q, ?_, hqdis⟩
    refine mem_foldl_erase_of_not_mem q (r :: rest) p hq ?_
    intro hqready
    rw [← hr] at hqready
    rw [enabled_of_mem_readyFilter e p q hqready] at hqdis
    cases hqdis

/-- Witness for C10: a two-step job, `a` enabled with no dependencies and
`b` disabled: after `a` executes, `b` is still pending but never ready, and
the flow raises. -/
theorem dag_disabled_pipeline_raises_witness :
    ∃ ns, execute_job_flow_dag (fun _ => true)
        { name := "demo_job",
          pipelines := [{ name := "a" }, { name := "b", enabled := false }] } =
      .error (.circular ns) :=
  dag_disabled_pipeline_raises
    { name := "demo_job",
      pipelines := [{ name := "a" }, { name := "b", enabled := false }] }
    ⟨{ name := "b", enabled := false }, by simp, rfl⟩

/-- The dependency edge of a job: step named `a` depends on name `b`. -/
def depOn (pipelines : List JobPipelineConfig) (a b : String) : Prop :=
  ∃ p ∈ pipelines, p.name = a ∧ b ∈ p.depends_on

/-- The job's dependency graph contains a (directed) cycle: a nonempty chain
of edges from `a` that ends back at `a`. -/
def hasCycle (pipelines : List JobPipelineConfig) : Prop :=
  ∃ a l, l ≠ [] ∧ List.Chain (depOn pipelines) a l ∧ l.getLast? = some a

/-- Some step depends on a name that no pipeline of the job carries. -/
def hasMissingDep (pipelines : List JobPipelineConfig) : Prop :=
  ∃ p ∈ pipelines, ∃ d ∈ p.depends_on, ∀ q ∈ pipelines, q.name ≠ d

/-- Every node of a closed cyclic chain has a successor inside the chain. -/
theorem cycle_mem_succ (edge : String → String → Prop) (a : String) (lc : List String)
    (hlne : lc ≠ []) (hchain : List.Chain edge a lc) (hlast : lc.getLast? = some a) :
    ∀ x ∈ a :: lc, ∃ y ∈ a :: lc, edge x y := by
  have hlen : 0 < lc.length := List.length_pos.mpr hlne
  obtain ⟨hfirst, hrest⟩ := List.chain_iff_get.mp hchain
  have hheadsucc : ∃ y ∈ a :: lc, edge a y :=
    ⟨lc.get ⟨0, hlen⟩, List.mem_cons_of_mem a (lc.get_mem _ _), hfirst hlen⟩
  intro x hx
  rcases List.mem_cons.mp hx with rfl | hxl
  · exact hheadsucc
  · obtain ⟨⟨i, hi⟩, hig⟩ := List.mem_iff_get.mp hxl
    by_cases hilast : i < lc.length - 1
    · refine ⟨lc.get ⟨i + 1, by omega⟩,
        List.mem_cons_of_mem a (lc.get_mem _ _), ?_⟩
      rw [← hig]
      exact hrest i hilast
    · have hieq : i = lc.length - 1 := by omega
      have hxa : x = a := by
        have h₁ : lc.getLast? = some (lc.getLast hlne) := List.getLast?_eq_getLast lc hlne
        rw [h₁] at hlast
        have h₂ := Option.some.inj hlast
        have h₃ : lc.getLast hlne = lc.get ⟨lc.length - 1, by omega⟩ :=
          List.getLast_eq_get lc hlne
        have h₄ : lc.get ⟨i, hi⟩ = lc.get ⟨lc.length - 1, by omega⟩ := by
          congr 1
          exact Fin.ext hieq
        rw [← hig, h₄, ← h₃]
        exact h₂
      rw [hxa]
      exact hheadsucc

/-- Pigeonhole: a finite set in which every node has a successor inside the
set contains a cycle. -/
theorem cycle_of_closed_set (edge : String → String → Prop) (S : Finset String)
    (hne : S.Nonempty) (hcl : ∀ s ∈ S, ∃ t ∈ S, edge s t) :
    ∃ a l, l ≠ [] ∧ List.Chain edge a l ∧ l.getLast? = some a := by
  obtain ⟨x₀, hx₀⟩ := hne
  have hG : ∀ s : {x // x ∈ S}, ∃ t : {x // x ∈ S}, edge s.val t.val := by
    rintro ⟨s, hs⟩
    obtain ⟨t, ht, he⟩ := hcl s hs
    exact ⟨⟨t, ht⟩, he⟩
  choose g hg using hG
  set w : ℕ → {x // x ∈ S} := fun n => g^[n] ⟨x₀, hx₀⟩ with hw
  have hedge : ∀ n, edge (w n).val (w (n + 1)).val := by
    intro n
    have hsucc : w (n + 1) = g (w n) := by
      rw [hw]
      exact Function.iterate_succ_apply' g n ⟨x₀, hx₀⟩
    rw [hsucc]
    exact hg (w n)
  have key : ∀ i j : ℕ, i < j → (w i).val = (w j).val →
      ∃ a l, l ≠ [] ∧ List.Chain edge a l ∧ l.getLast? = some a := by
    intro i j hij heq
    have hget : ∀ (k : ℕ)
        (hk : k < ((List.range (j - i)).map (fun t => (w (i + 1 + t)).val)).length),
        ((List.range (j - i)).map (fun t => (w (i + 1 + t)).val)).get ⟨k, hk⟩ =
          (w (i + 1 + k)).val := by
      intro k hk
      simp [List.get_eq_getElem]
    refine ⟨(w i).val, (List.range (j - i)).map (fun t => (w (i + 1 + t)).val), ?_, ?_, ?_⟩
    · have hne₂ : j - i ≠ 0 := by omega
      simp [List.map_eq_nil, List.range_eq_nil, hne₂]
    · rw [List.chain_iff_get]
      constructor
      · intro h
        rw [hget 0 h]
        exact hedge i
      · intro t ht
        rw [hget t (by omega), hget (t + 1) (by omega)]
        exact hedge (i + 1 + t)
    · have hj₁ : j - i = (j - i - 1) + 1 := by omega
      rw [hj₁, List.range_succ, List.map_append, List.map_cons, List.map_nil,
        List.getLast?_concat]
      have harith : i + 1 + (j - i - 1) = j := by omega
      rw [harith, ← heq]
  obtain ⟨i, hi, j, hj, hij, heq⟩ :=
    Finset.exists_ne_map_eq_of_card_lt_of_maps_to
      (s := Finset.range (S.card + 1)) (t := S) (f := fun n => (w n).val)
      (by simp) (fun n _ => (w n).2)
  rcases lt_or_gt_of_ne hij with hlt | hgt
  · exact key i j hlt heq
  · exact key j i hgt heq.symm

/-- Pipelines with the same declared name in a nodup-named job are equal. -/
theorem pipeline_name_inj (pipelines : List JobPipelineConfig)
    (hnd : (pipelines.map (fun p => p.name)).Nodup)
    (p q : JobPipelineConfig) (hp : p ∈ pipelines) (hq : q ∈ pipelines)
    (h : p.name = q.name) : p = q :=
  List.inj_on_of_nodup_map hnd hp hq h

/-- If the all-successful dag loop raises from a state where the pending
steps all belong to the (all-enabled) job and every job name is accounted
for (executed or pending), then the job has a cycle or a dependency on a
name outside the job. -/
theorem execDag_error_cause (pipelines : List JobPipelineConfig)
    (hen : ∀ p ∈ pipelines, p.enabled = true) :
    ∀ (n : ℕ) (p : List JobPipelineConfig) (e : List String) (err : DagErr),
      p.length ≤ n →
      (∀ x ∈ p, x ∈ pipelines) →
      (∀ q ∈ pipelines, q.name ∈ e ∨ ∃ x ∈ p, x.name = q.name) →
      execDag (fun _ => true) e p = .error err →
      hasCycle pipelines ∨ hasMissingDep pipelines := by
  intro n
  induction n with
  | zero =>
      intro p e err hlen hsub hacc herr
      cases p with
      | nil => rw [execDag_nil] at herr; cases herr
      | cons a t => simp at hlen
  | succ n ih =>
      intro p e err hlen hsub hacc herr
      cases hp : p with
      | nil => rw [hp, execDag_nil] at herr; cases herr
      | cons p₀ ptail =>
          cases hr : readyFilter e p with
          | nil =>
              have hblocked : ∀ x ∈ p, ∃ d ∈ x.depends_on, d ∉ e := by
                intro x hx
                have hxen : x.enabled = true := hen x (hsub x hx)
                have hnp := List.filter_eq_nil.mp hr x hx
                simp only [hxen, Bool.true_and, List.all_eq_true] at hnp
                push_neg at hnp
                obtain ⟨d, hd, hde⟩ := hnp
                exact ⟨d, hd, by simpa using hde⟩
              by_cases hmd : hasMissingDep pipelines
              · exact Or.inr hmd
              · left
                rw [hasMissingDep] at hmd
                push_neg at hmd
                refine cycle_of_closed_set (depOn pipelines)
                  ((p.map (fun x => x.name)).toFinset) ?_ ?_
                · rw [hp]
                  exact ⟨p₀.name, by simp⟩
                · intro s hs
                  rw [List.mem_toFinset, List.mem_map] at hs
                  obtain ⟨x, hx, hxname⟩ := hs
                  obtain ⟨d, hd, hde⟩ := hblocked x hx
                  obtain ⟨q, hq, hqd⟩ := hmd x (hsub x hx) d hd
                  refine ⟨d, ?_, x, hsub x hx, hxname, hd⟩
                  rcases hacc q hq with hqe | ⟨y, hy, hyname⟩
                  · rw [hqd] at hqe
                    exact absurd hqe hde
                  · rw [List.mem_toFinset, List.mem_map]
                    exact ⟨y, hy, by rw [hyname, hqd]⟩
          | cons r rest =>
              have hb := runBatch_true (r :: rest) e p
              have hmem : r ∈ p := by
                have hin : r ∈ readyFilter e p := by
                  rw [hr]
                  exact List.mem_cons_self r rest
                exact List.mem_of_mem_filter hin
              have hlt := runBatch_ok_length_lt (fun _ => true) r rest e p _ _ hb hmem
              have herr₂ := (execDag_step (fun _ => true) e p r rest _ _ hr hb).symm.trans herr
              refine ih _ _ err (by omega) ?_ ?_ herr₂
              · intro x hx
                exact hsub x (mem_of_mem_foldl_erase x (r :: rest) p hx)
              · intro q hq
                rcases hacc q hq with hqe | ⟨x, hx, hxname⟩
                · exact Or.inl (List.mem_append_left _ hqe)
                · by_cases hxp : x ∈ (r :: rest).foldl (fun acc q => acc.erase q) p
                  · exact Or.inr ⟨x, hxp, hxname⟩
                  · have hxb := mem_batch_of_not_mem_foldl_erase x (r :: rest) p hx hxp
                    refine Or.inl (List.mem_append_right _ ?_)
                    rw [List.mem_map]
                    exact ⟨x, hxb, hxname⟩

/-- C8 (amended): for a dag-mode job whose pipeline names are distinct,
whose pipelines are all enabled, and whose dispatched pipelines all succeed,
the loop raises the "Circular dependency or missing pipeline" ValueError
exactly when the dependency graph has a cycle or some step depends on a
name no pipeline of the job carries. (Raising when no step is ready while
steps remain is the loop's definition; disabled steps break the
"exactly when", see the counterexample.) -/
theorem dag_circular_error_iff (job : JobConfig)
    (hnd : (job.pipelines.map (fun p => p.name)).Nodup)
    (hen : ∀ p ∈ job.pipelines, p.enabled = true) :
    (∃ ns, execute_job_flow_dag (fun _ => true) job = .error (.circular ns)) ↔
      (hasCycle job.pipelines ∨ hasMissingDep job.pipelines) := by
  constructor
  · rintro ⟨ns, hns⟩
    exact execDag_error_cause job.pipelines hen job.pipelines.length job.pipelines []
      (.circular ns) le_rfl (fun x hx => hx) (fun q hq => Or.inr ⟨q, hq, rfl⟩) hns
  · rintro (⟨a, lc, hlne, hchain, hlast⟩ | ⟨pm, hpm, d, hd, hext⟩)
    · -- a cycle: its members are never dispatched, so pending never drains
      have hsucc := cycle_mem_succ (depOn job.pipelines) a lc hlne hchain hlast
      refine execDag_error_of_invariant
        (fun e p => (∀ x ∈ p, x ∈ job.pipelines) ∧
          ∀ c ∈ a :: lc, c ∉ e ∧ ∃ q ∈ p, q.name = c) ?_ ?_ job.pipelines [] ?_
      · rintro e p ⟨_, hC⟩
        obtain ⟨_, q, hq, _⟩ := hC a (List.mem_cons_self a lc)
        exact List.ne_nil_of_mem hq
      · rintro e p r rest ⟨hsub, hC⟩ hr
        have hnoC : ∀ r₂, r₂ ∈ r :: rest → r₂.name ∉ a :: lc := by
          intro r₂ hr₂ hname
          have hrf : r₂ ∈ readyFilter e p := by rw [hr]; exact hr₂
          have hr₂p : r₂ ∈ p := List.mem_of_mem_filter hrf
          obtain ⟨y, hy, pc, hpc, hpcname, hydep⟩ := hsucc r₂.name hname
          have hpcr : pc = r₂ :=
            pipeline_name_inj job.pipelines hnd pc r₂ hpc (hsub r₂ hr₂p) hpcname
          have hye : y ∈ e :=
            deps_of_mem_readyFilter e p r₂ hrf y (by rw [← hpcr]; exact hydep)
          exact (hC y hy).1 hye
        refine ⟨?_, ?_⟩
        · intro x hx
          exact hsub x (mem_of_mem_foldl_erase x (r :: rest) p hx)
        · intro c hc
          obtain ⟨hce, q, hq, hqname⟩ := hC c hc
          refine ⟨?_, q, ?_, hqname⟩
          · intro hmem
            rcases List.mem_append.mp hmem with h | h
            · exact hce h
            · rw [List.mem_map] at h
              obtain ⟨r₂, hr₂, hr₂name⟩ := h
              exact hnoC r₂ hr₂ (by rw [hr₂name]; exact hc)
          · refine mem_foldl_erase_of_not_mem q (r :: rest) p hq ?_
            intro hqready
            exact hnoC q hqready (by rw [hqname]; exact hc)
      · refine ⟨fun x hx => hx, ?_⟩
        intro c hc
        obtain ⟨y, _, pc, hpc, hpcname, _⟩ := hsucc c hc
        exact ⟨fun h => absurd h (List.not_mem_nil c), pc, hpc, hpcname⟩
    · -- a dependency on a name outside the job: that step is never ready
      refine execDag_error_of_invariant
        (fun e p => (∀ x ∈ p, x ∈ job.pipelines) ∧
          (∀ nm ∈ e, ∃ q ∈ job.pipelines, q.name = nm) ∧ pm ∈ p) ?_ ?_ job.pipelines [] ?_
      · rintro e p ⟨_, _, hpm₂⟩
        exact List.ne_nil_of_mem hpm₂
      · rintro e p r rest ⟨hsub, hnames, hpm₂⟩ hr
        refine ⟨?_, ?_, ?_⟩
        · intro x hx
          exact hsub x (mem_of_mem_foldl_erase x (r :: rest) p hx)
        · intro nm hnm
          rcases List.mem_append.mp hnm with h | h
          · exact hnames nm h
          · rw [List.mem_map] at h
            obtain ⟨r₂, hr₂, hr₂name⟩ := h
            have hrf : r₂ ∈ readyFilter e p := by rw [hr]; exact hr₂
            exact ⟨r₂, hsub r₂ (List.mem_of_mem_filter hrf), hr₂name⟩
        · refine mem_foldl_erase_of_not_mem pm (r :: rest) p hpm₂ ?_
          intro hready
          have hrf : pm ∈ readyFilter e p := by rw [hr]; exact hready
          have hde : d ∈ e := deps_of_mem_readyFilter e p pm hrf d hd
          obtain ⟨q, hq, hqd⟩ := hnames d hde
          exact hext q hq hqd
      · exact ⟨fun x hx => hx, fun nm hnm => absurd hnm (List.not_mem_nil nm), hpm⟩

/-- The two-step demo job with one disabled pipeline: no cycle, no missing
dependency, and yet the dag loop raises. -/
def demoDisabledJob : JobConfig :=
  { name := "demo_job",
    pipelines := [{ name := "a" }, { name := "b", enabled := false }] }

/-- C8 counterexample: on `demoDisabledJob` — acyclic, self-contained — the
all-successful dag loop still raises the circular-dependency ValueError
(with an empty remaining list, since the leftover pending step is
disabled), refuting the "exactly when" of the claim. -/
theorem dag_raises_without_cycle :
    execute_job_flow_dag (fun _ => true) demoDisabledJob = .error (.circular [])
    ∧ ¬ hasCycle demoDisabledJob.pipelines
    ∧ ¬ hasMissingDep demoDisabledJob.pipelines := by
  refine ⟨?_, ?_, ?_⟩
  · have h₁ : readyFilter [] demoDisabledJob.pipelines = [{ name := "a" }] := rfl
    have h₂ : runBatch (fun _ => true) [{ name := "a" }] [] demoDisabledJob.pipelines =
        .ok (["a"], [{ name := "b", enabled := false }]) := rfl
    have h₃ := execDag_step (fun _ => true) [] demoDisabledJob.pipelines
      { name := "a" } [] ["a"] [{ name := "b", enabled := false }] h₁ h₂
    have h₄ : readyFilter ["a"] [{ name := "b", enabled := false }] = [] := rfl
    have h₅ := execDag_stuck (fun _ => true) ["a"] [{ name := "b", enabled := false }]
      (by simp) h₄
    exact h₃.trans (h₅.trans (by rfl))
  · rintro ⟨a, lc, hlne, hchain, hlast⟩
    cases lc with
    | nil => exact hlne rfl
    | cons x xs =>
        cases hchain with
        | cons hedge htail =>
            obtain ⟨p, hp, hname, hbdep⟩ := hedge
            simp only [demoDisabledJob, List.mem_cons, List.not_mem_nil, or_false] at hp
            rcases hp with rfl | rfl <;> simp at hbdep
  · rintro ⟨p, hp, d, hd, _⟩
    simp only [demoDisabledJob, List.mem_cons, List.not_mem_nil, or_false] at hp
    rcases hp with rfl | rfl <;> simp at hd

/-- The two-step cyclic demo job. -/
def demoCycleJob : JobConfig :=
  { name := "cyclic_job",
    pipelines := [{ name := "a", depends_on := ["b"] }, { name := "b", depends_on := ["a"] }] }

/-- Witness for C8 at a concrete input: a two-step cyclic job raises the
circular-dependency ValueError. -/
theorem dag_circular_error_iff_witness :
    ∃ ns, execute_job_flow_dag (fun _ => true) demoCycleJob = .error (.circular ns) :=
  (dag_circular_error_iff demoCycleJob (by decide) (by decide)).mpr
    (Or.inl ⟨"a", ["b", "a"], by simp,
      List.Chain.cons
        ⟨{ name := "a", depends_on := ["b"] }, by simp [demoCycleJob], rfl, by decide⟩
        (List.Chain.cons
          ⟨{ name := "b", depends_on := ["a"] }, by simp [demoCycleJob], rfl, by decide⟩
          List.Chain.nil),
      by simp⟩)

end DWH
